import Mathlib

/-!
Verification development for the node-graphql repository.

The repository exposes a GraphQL query interface over users, profiles,
posts, member types and a self-referential subscription relation
(`SubscribersOnAuthors`).  The development below embeds:

* the data rows and the Prisma operations the resolvers issue
  (`src/unnamed/part_001`, `src/src/routes/graphql/index.ts`),
* the resolver functions of the latest route variant
  (`src/unnamed/part_001`): the root `Query` resolvers and the
  `User.userSubscribedTo` / `User.subscribedToUser` field resolvers,
* the request pipeline of `src/unnamed/part_001`: the depth-limit
  pre-handler and the try/catch handler, and
* the ad-hoc `transformedEntry` reshaping of `resolvers.Query.user` in
  `src/src/routes/graphql/index.ts`.

The query-execution skeleton (field completion, per-field error
isolation, error paths) is performed in the source by the external
`graphql` library; it is modelled from the spec (sections 4.4, 4.5, 7),
while every fetch the executor issues is exactly the Prisma call the
source resolvers make.
-/

/-- Row of the `User` Prisma model: `id`, `name`, `balance`.
The float `balance` is embedded as `Int`; the engine only passes it
through, never computes with it. -/
structure UserRow where
  id : String
  name : String
  balance : Int
deriving DecidableEq

/-- Row of the `Post` Prisma model. -/
structure PostRow where
  id : String
  title : String
  content : String
  authorId : String
deriving DecidableEq

/-- Row of the `Profile` Prisma model. -/
structure ProfileRow where
  id : String
  isMale : Bool
  yearOfBirth : Int
  userId : String
  memberTypeId : String
deriving DecidableEq

/-- Row of the `MemberType` Prisma model (discount embedded as `Int`,
passthrough only). -/
structure MemberTypeRow where
  id : String
  discount : Int
  postsLimitPerMonth : Int
deriving DecidableEq

/-- Row of the `SubscribersOnAuthors` join model: one subscription edge
`subscriberId → authorId`. -/
structure SubRow where
  subscriberId : String
  authorId : String
deriving DecidableEq

/-- The data store held by the storage collaborator (Prisma). -/
structure Store where
  users : List UserRow
  posts : List PostRow
  profiles : List ProfileRow
  memberTypes : List MemberTypeRow
  subscribersOnAuthors : List SubRow
deriving DecidableEq

/-- JSON-like values: what resolvers return and what the response
document is made of. -/
inductive JValue where
  | null
  | str (s : String)
  | int (n : Int)
  | bool (b : Bool)
  | arr (xs : List JValue)
  | obj (fs : List (String × JValue))

/-- Property read used by the default (resolver-less) GraphQL field
resolution: look a key up on an object; anything else, including a
missing key, resolves to `null` (`undefined` and `null` both complete
to `null`). -/
def getProp : JValue → String → JValue
  | .obj fs, n => (fs.lookup n).getD .null
  | _, _ => .null

/-- String content of a JSON value, defaulting to `""`. -/
def getStr : JValue → String
  | .str s => s
  | _ => ""

/-- Scalar columns of a user row, as Prisma returns them. -/
def userFieldsJ (u : UserRow) : List (String × JValue) :=
  [("id", .str u.id), ("name", .str u.name), ("balance", .int u.balance)]

/-- A bare user row as a JSON object (what `prisma.user.findMany`
without `include` returns for each row). -/
def userJ (u : UserRow) : JValue := .obj (userFieldsJ u)

/-- A post row as a JSON object. -/
def postJ (p : PostRow) : JValue :=
  .obj [("id", .str p.id), ("title", .str p.title),
        ("content", .str p.content), ("authorId", .str p.authorId)]

/-- A profile row as a JSON object. -/
def profileJ (p : ProfileRow) : JValue :=
  .obj [("id", .str p.id), ("isMale", .bool p.isMale),
        ("yearOfBirth", .int p.yearOfBirth), ("userId", .str p.userId),
        ("memberTypeId", .str p.memberTypeId)]

/-- A member-type row as a JSON object. -/
def memberTypeJ (m : MemberTypeRow) : JValue :=
  .obj [("id", .str m.id), ("discount", .int m.discount),
        ("postsLimitPerMonth", .int m.postsLimitPerMonth)]

/-- A subscription join row as a JSON object. -/
def subRowJ (r : SubRow) : JValue :=
  .obj [("subscriberId", .str r.subscriberId), ("authorId", .str r.authorId)]

/-- A profile with its member type attached, as produced by
`include: { memberType: true }`. -/
def profileWithMemberTypeJ (s : Store) (p : ProfileRow) : JValue :=
  .obj (
    [("id", .str p.id), ("isMale", .bool p.isMale),
     ("yearOfBirth", .int p.yearOfBirth), ("userId", .str p.userId),
     ("memberTypeId", .str p.memberTypeId)] ++
    [("memberType",
      match s.memberTypes.find? (fun m => m.id == p.memberTypeId) with
      | some m => memberTypeJ m
      | none => .null)])

/-- Fields of a user row fetched with
`include: { profile: { include: { memberType: true } }, posts: true }`,
the include shape of `resolvers.Query.users` and `resolvers.Query.user`
(`src/unnamed/part_001` lines 183-222). -/
def userIncludeFieldsJ (s : Store) (u : UserRow) : List (String × JValue) :=
  userFieldsJ u ++
  [("profile",
    match s.profiles.find? (fun p => p.userId == u.id) with
    | some p => profileWithMemberTypeJ s p
    | none => .null),
   ("posts", .arr ((s.posts.filter (fun p => p.authorId == u.id)).map postJ))]

/-- A user row with the `users` root-query include shape. -/
def userIncludeJ (s : Store) (u : UserRow) : JValue :=
  .obj (userIncludeFieldsJ s u)

/-- A user row with the `user(id)` root-query include shape of
`src/unnamed/part_001` (additionally `userSubscribedTo: true` and
`subscribedToUser: true`, which return the raw join rows). -/
def userUniqueIncludeJ (s : Store) (u : UserRow) : JValue :=
  .obj (userIncludeFieldsJ s u ++
    [("userSubscribedTo",
      .arr ((s.subscribersOnAuthors.filter
              (fun r => r.subscriberId == u.id)).map subRowJ)),
     ("subscribedToUser",
      .arr ((s.subscribersOnAuthors.filter
              (fun r => r.authorId == u.id)).map subRowJ))])

/-- The Prisma calls the route's resolvers issue.  Read operations come
from `resolvers.Query` and the `User` field resolvers; write operations
come from `resolvers.Mutation` (`src/unnamed/part_001` lines 175-314). -/
inductive Op where
  | findManyMemberTypes
  | findManyPosts
  | findManyUsersInclude
  | findManyProfiles
  | findUniqueMemberType (id : String)
  | findUniquePost (id : String)
  | findUniqueUserInclude (id : String)
  | findUniqueProfile (id : String)
  | findManyUsersSubscribedTo (subscriberId : String)
  | findManyUsersSubscribers (authorId : String)
  | createUser (u : UserRow)
  | changeUser (id : String) (name : String) (balance : Int)
  | deleteUser (id : String)
  | createPost (p : PostRow)
  | changePost (id : String) (title : String) (content : String)
  | deletePost (id : String)
  | createProfile (p : ProfileRow)
  | changeProfile (id : String) (isMale : Bool) (yearOfBirth : Int)
      (memberTypeId : String)
  | deleteProfile (id : String)
  | subscribeTo (userId : String) (authorId : String)
  | unsubscribeFrom (userId : String) (authorId : String)
deriving DecidableEq

/-- Users the source user has subscribed to:
`prisma.user.findMany({ where: { subscribedToUser: { some: { subscriberId: source.id } } } })`
(`src/unnamed/part_001` lines 66-74). -/
def usersSubscribedToOf (s : Store) (srcId : String) : List UserRow :=
  s.users.filter (fun u =>
    s.subscribersOnAuthors.any
      (fun r => r.subscriberId == srcId && r.authorId == u.id))

/-- Users subscribed to the source user:
`prisma.user.findMany({ where: { userSubscribedTo: { some: { authorId: source.id } } } })`
(`src/unnamed/part_001` lines 80-88). -/
def usersSubscribersOf (s : Store) (srcId : String) : List UserRow :=
  s.users.filter (fun u =>
    s.subscribersOnAuthors.any
      (fun r => r.authorId == srcId && r.subscriberId == u.id))

/-- Semantics of a Prisma call against the store: the returned JSON value
and the store afterwards.  `findMany`/`findUnique` read; `create`,
`update`, `delete` write. -/
def runOp : Op → Store → JValue × Store
  | .findManyMemberTypes, s => (.arr (s.memberTypes.map memberTypeJ), s)
  | .findManyPosts, s => (.arr (s.posts.map postJ), s)
  | .findManyUsersInclude, s => (.arr (s.users.map (userIncludeJ s)), s)
  | .findManyProfiles, s => (.arr (s.profiles.map profileJ), s)
  | .findUniqueMemberType i, s =>
      ((match s.memberTypes.find? (fun m => m.id == i) with
        | some m => memberTypeJ m
        | none => .null), s)
  | .findUniquePost i, s =>
      ((match s.posts.find? (fun p => p.id == i) with
        | some p => postJ p
        | none => .null), s)
  | .findUniqueUserInclude i, s =>
      ((match s.users.find? (fun u => u.id == i) with
        | some u => userUniqueIncludeJ s u
        | none => .null), s)
  | .findUniqueProfile i, s =>
      ((match s.profiles.find? (fun p => p.id == i) with
        | some p => profileJ p
        | none => .null), s)
  | .findManyUsersSubscribedTo srcId, s =>
      (.arr ((usersSubscribedToOf s srcId).map userJ), s)
  | .findManyUsersSubscribers srcId, s =>
      (.arr ((usersSubscribersOf s srcId).map userJ), s)
  | .createUser u, s => (userJ u, { s with users := s.users ++ [u] })
  | .changeUser i nm bal, s =>
      (userJ ⟨i, nm, bal⟩,
       { s with users := s.users.map (fun u => if u.id == i then ⟨u.id, nm, bal⟩ else u) })
  | .deleteUser i, s =>
      (.null, { s with users := s.users.filter (fun u => !(u.id == i)) })
  | .createPost p, s => (postJ p, { s with posts := s.posts ++ [p] })
  | .changePost i t c, s =>
      (.null,
       { s with posts := s.posts.map (fun p => if p.id == i then ⟨p.id, t, c, p.authorId⟩ else p) })
  | .deletePost i, s =>
      (.null, { s with posts := s.posts.filter (fun p => !(p.id == i)) })
  | .createProfile p, s =>
      (profileJ p, { s with profiles := s.profiles ++ [p] })
  | .changeProfile i m y mt, s =>
      (.null,
       { s with profiles := s.profiles.map (fun p => if p.id == i then ⟨p.id, m, y, p.userId, mt⟩ else p) })
  | .deleteProfile i, s =>
      (.null,
       { s with profiles := s.profiles.filter (fun p => !(p.id == i)) })
  | .subscribeTo u a, s =>
      (subRowJ ⟨u, a⟩,
       { s with subscribersOnAuthors := s.subscribersOnAuthors ++ [⟨u, a⟩] })
  | .unsubscribeFrom u a, s =>
      (.null,
       { s with subscribersOnAuthors := s.subscribersOnAuthors.filter (fun r => !(r.subscriberId == u && r.authorId == a)) })

/-- Whether a Prisma call is a read (`findMany` / `findUnique`). -/
def opReads : Op → Bool
  | .findManyMemberTypes | .findManyPosts | .findManyUsersInclude
  | .findManyProfiles | .findUniqueMemberType _ | .findUniquePost _
  | .findUniqueUserInclude _ | .findUniqueProfile _
  | .findManyUsersSubscribedTo _ | .findManyUsersSubscribers _ => true
  | _ => false

/-- Replay a list of Prisma calls against the store, keeping only the
store evolution. -/
def applyOps (ops : List Op) (s : Store) : Store :=
  ops.foldl (fun st op => (runOp op st).2) s

theorem runOp_reads_store (op : Op) (s : Store) (h : opReads op = true) :
    (runOp op s).2 = s := by
  cases op <;> simp [opReads] at h ⊢ <;> rfl

theorem applyOps_reads (ops : List Op) (s : Store)
    (h : ∀ op ∈ ops, opReads op = true) : applyOps ops s = s := by
  induction ops with
  | nil => rfl
  | cons op rest ih =>
      have h1 : (runOp op s).2 = s := runOp_reads_store op s (h op (by simp))
      simp only [applyOps, List.foldl_cons, h1]
      exact ih (fun o ho => h o (by simp [ho]))

/-- A query-shape node: a field name, an optional `id` argument (used by
the single-entity root fields), and the nested selection. -/
inductive Sel where
  | mk (name : String) (arg : Option String) (sub : List Sel)

/-- Name of a query-shape node. -/
def Sel.name : Sel → String
  | .mk n _ _ => n

/-- Nested selection of a query-shape node. -/
def Sel.sub : Sel → List Sel
  | .mk _ _ sub => sub

/-- Induction principle for query shapes together with selection lists
(the nested recursor packaged for `Prop`). -/
theorem Sel.inductionOn (P : Sel → Prop) (Q : List Sel → Prop)
    (h1 : ∀ n a sub, Q sub → P (.mk n a sub))
    (h2 : Q []) (h3 : ∀ s l, P s → Q l → Q (s :: l)) :
    (∀ s, P s) ∧ (∀ l, Q l) :=
  ⟨fun s => Sel.rec (motive_1 := P) (motive_2 := Q) h1 h2 h3 s,
   fun l => Sel.rec_1 (motive_1 := P) (motive_2 := Q) h1 h2 h3 l⟩

mutual
/-- Modelled from the spec: depth of one query-shape node — "the number
of relation-field nestings from the query root to the deepest leaf,
inclusive of the root's immediate relation children counting as
depth 1" (spec section 4.2).  The depth rule itself lives in the
external `graphql-depth-limit` package wired in at
`src/unnamed/part_001` line 466; a node with a nested selection is a
relation nesting, a leaf contributes nothing. -/
def depthSel : Sel → Nat
  | .mk _ _ sub =>
    match sub with
    | [] => 0
    | x :: rest => 1 + depthSels (x :: rest)

/-- Modelled from the spec: depth of a selection list — the maximum of
its nodes' depths. -/
def depthSels : List Sel → Nat
  | [] => 0
  | s :: rest => max (depthSel s) (depthSels rest)
end

/-- The configured depth ceiling: `depthLimit(5)`
(`src/unnamed/part_001` line 466). -/
def maxDepth : Nat := 5

/-- Cardinality and target of a schema field. -/
inductive FKind where
  | scalar
  | one (target : String)
  | many (target : String)

/-- The schema of `src/unnamed/part_001`: for each object type and field
name, its kind and target type (`MemberType`, `Post`, `User`, `Profile`
object types, lines 35-103, and the `Query` root fields,
lines 316-365). -/
def fieldKind : String → String → Option FKind
  | "Query", "memberTypes" => some (.many "MemberType")
  | "Query", "posts" => some (.many "Post")
  | "Query", "users" => some (.many "User")
  | "Query", "profiles" => some (.many "Profile")
  | "Query", "memberType" => some (.one "MemberType")
  | "Query", "post" => some (.one "Post")
  | "Query", "user" => some (.one "User")
  | "Query", "profile" => some (.one "Profile")
  | "User", "id" => some .scalar
  | "User", "name" => some .scalar
  | "User", "balance" => some .scalar
  | "User", "profile" => some (.one "Profile")
  | "User", "posts" => some (.many "Post")
  | "User", "userSubscribedTo" => some (.many "User")
  | "User", "subscribedToUser" => some (.many "User")
  | "Profile", "id" => some .scalar
  | "Profile", "isMale" => some .scalar
  | "Profile", "yearOfBirth" => some .scalar
  | "Profile", "user" => some (.one "User")
  | "Profile", "memberType" => some (.one "MemberType")
  | "Post", "id" => some .scalar
  | "Post", "title" => some .scalar
  | "Post", "content" => some .scalar
  | "Post", "author" => some (.one "User")
  | "MemberType", "id" => some .scalar
  | "MemberType", "discount" => some .scalar
  | "MemberType", "postsLimitPerMonth" => some .scalar
  | "MemberType", "profiles" => some (.many "Profile")
  | _, _ => none

/-- The eight `resolvers.Query` root resolvers of `src/unnamed/part_001`
(lines 175-228) as the Prisma call each issues, given the field name
and the `id` argument. -/
def queryFieldOp : String → Option String → Option Op
  | "memberTypes", _ => some .findManyMemberTypes
  | "posts", _ => some .findManyPosts
  | "users", _ => some .findManyUsersInclude
  | "profiles", _ => some .findManyProfiles
  | "memberType", a => some (.findUniqueMemberType (a.getD ""))
  | "post", a => some (.findUniquePost (a.getD ""))
  | "user", a => some (.findUniqueUserInclude (a.getD ""))
  | "profile", a => some (.findUniqueProfile (a.getD ""))
  | _, _ => none

/-- The two `User` relation-field resolvers of `src/unnamed/part_001`
(lines 63-90) as the Prisma call each issues; both filter by
`source.id` of the parent object. -/
def userFieldOp : String → JValue → Option Op
  | "userSubscribedTo", parent =>
      some (.findManyUsersSubscribedTo (getStr (getProp parent "id")))
  | "subscribedToUser", parent =>
      some (.findManyUsersSubscribers (getStr (getProp parent "id")))
  | _, _ => none

/-- The explicit resolvers of `src/unnamed/part_001`: the `Query` root
resolvers and the two `User` relation-field resolvers.  Every other
field has no resolver and falls back to the default property read. -/
def fieldOp (t n : String) (a : Option String) (parent : JValue) :
    Option Op :=
  if t = "Query" then queryFieldOp n a
  else if t = "User" then userFieldOp n parent
  else none

/-- One step of a response path: a field name or a list index. -/
inductive PathSeg where
  | fld (name : String)
  | idx (i : Nat)
deriving DecidableEq

/-- Location of a value in the response document. -/
abbrev QPath := List PathSeg

/-- One entry of the response error list: the path of the affected field
and a message. -/
structure FieldError where
  path : QPath
  message : String
deriving DecidableEq

/-- The fetch calls issued during execution, each with the path of the
field whose resolver issued it. -/
abbrev FetchLog := List (QPath × Op)

/-- Result of resolving one field. -/
structure FOut where
  val : JValue
  errs : List FieldError
  log : FetchLog

/-- Result of resolving a selection list against one parent object. -/
structure OOut where
  fields : List (String × JValue)
  errs : List FieldError
  log : FetchLog

/-- An executor for a selection list, awaiting the failure set, the
store, the parent's type name and the parent value. -/
abbrev ObjExec := (Op → Bool) → Store → String → JValue → OOut

/-- Message attached when a fetch to the storage collaborator fails
(spec section 7, Field-fetch-failed). -/
def fetchFailedMessage : String := "Failed to fetch from storage"

/-- Prefix a path segment onto every error produced inside a field. -/
def prefErrs (p : PathSeg) (es : List FieldError) : List FieldError :=
  es.map (fun e => ⟨p :: e.path, e.message⟩)

/-- Prefix a path segment onto every logged fetch call inside a field. -/
def prefLog (p : PathSeg) (lg : FetchLog) : FetchLog :=
  lg.map (fun e => (p :: e.1, e.2))

/-- Modelled from the spec: completion of the elements of a `many`
relation value, in order, starting at element index `i` (spec
sections 4.4, 4.5).  An object element is resolved against the nested
selection through `k`; any other element resolves to null.  Errors and
logged fetches of an element are prefixed with its index. -/
def completeElems (k : ObjExec) (fails : Op → Bool) (s : Store)
    (t : String) : Nat → List JValue →
    List JValue × List FieldError × FetchLog
  | _, [] => ([], [], [])
  | i, x :: rest =>
      let hd :=
        match x with
        | .obj fs =>
            let o := k fails s t (.obj fs)
            (JValue.obj o.fields, prefErrs (.idx i) o.errs,
             prefLog (.idx i) o.log)
        | _ => (JValue.null, ([] : List FieldError), ([] : FetchLog))
      let tl := completeElems k fails s t (i + 1) rest
      (hd.1 :: tl.1, hd.2.1 ++ tl.2.1, hd.2.2 ++ tl.2.2)

/-- Modelled from the spec: completion of a resolved field value
(spec sections 4.4, 4.5; performed in the source by the external
`graphql` library).  A scalar field passes its value through; a `one`
relation recurses into an object value and otherwise resolves to null;
a `many` relation recurses into each object element of an array value,
null-ing non-object elements, and otherwise resolves to null. -/
def completeVal (kind : FKind) (k : ObjExec) (fails : Op → Bool)
    (s : Store) (v : JValue) : JValue × List FieldError × FetchLog :=
  match kind with
  | .scalar => (v, [], [])
  | .one t =>
    match v with
    | .obj fs =>
        let o := k fails s t (.obj fs)
        (.obj o.fields, o.errs, o.log)
    | _ => (.null, [], [])
  | .many t =>
    match v with
    | .arr xs =>
        let r := completeElems k fails s t 0 xs
        (.arr r.1, r.2.1, r.2.2)
    | _ => (.null, [], [])

mutual
/-- Modelled from the spec: resolve one field of the query shape against
a parent value (spec section 4.4; the execution loop lives in the
external `graphql` library).  The resolver table `fieldOp` and the
fetch semantics `runOp` are translated from `src/unnamed/part_001`.
If the field has an explicit resolver, its Prisma call is logged and —
on failure — the field resolves to null with a single error at the
field's path, its subtree skipped; otherwise the fetched (or default
property) value is completed against the nested selection.  All inner
errors and logged calls are prefixed with this field's name. -/
def execSel : Sel → (Op → Bool) → Store → String → JValue → FOut
  | .mk n a sub => fun fails s t parent =>
      let kind := (fieldKind t n).getD .scalar
      let k := execSels sub
      match fieldOp t n a parent with
      | some op =>
          if fails op then
            ⟨.null, [⟨[.fld n], fetchFailedMessage⟩], [([.fld n], op)]⟩
          else
            let r := completeVal kind k fails s (runOp op s).1
            ⟨r.1, prefErrs (.fld n) r.2.1,
             ([PathSeg.fld n], op) :: prefLog (.fld n) r.2.2⟩
      | none =>
          let r := completeVal kind k fails s (getProp parent n)
          ⟨r.1, prefErrs (.fld n) r.2.1, prefLog (.fld n) r.2.2⟩

/-- Modelled from the spec: resolve a selection list against one parent
value, in declaration order, concatenating errors and fetch logs
(spec sections 4.4, 4.5). -/
def execSels : List Sel → (Op → Bool) → Store → String → JValue → OOut
  | [] => fun _ _ _ _ => ⟨[], [], []⟩
  | sel :: rest => fun fails s t parent =>
      let a := execSel sel fails s t parent
      let b := execSels rest fails s t parent
      ⟨(sel.name, a.val) :: b.fields, a.errs ++ b.errs, a.log ++ b.log⟩
end

/-- A GraphQL response: an optional data document plus an error list
(the envelope returned by the `graphql` call in the route handler). -/
structure GqlResult where
  data : Option JValue
  errors : List FieldError

/-- Execute a query's root selection list: the `graphql({ schema, ... })`
call of the handler (`src/unnamed/part_001` lines 478-483), with the
resolvers of that file; returns the response, the fetch log and the
store after all issued Prisma calls ran. -/
def graphqlExec (fails : Op → Bool) (s : Store) (q : List Sel) :
    GqlResult × FetchLog × Store :=
  let o := execSels q fails s "Query" .null
  (⟨some (.obj o.fields), o.errs⟩, o.log, applyOps (o.log.map (fun e => e.2)) s)

/-- Message of the depth-limit error produced when validation rejects
the query (spec section 4.2, Request-rejected). -/
def depthExceededMessage : String := "exceeds maximum operation depth of 5"

/-- Message of the syntax error `parse(query)` throws on a malformed
query inside the pre-handler (`src/unnamed/part_001` line 466). -/
def parseFailureMessage : String := "Syntax Error"

/-- The route of `src/unnamed/part_001` (lines 455-498): the pre-handler
parses the query — a query that fails to parse makes `parse` throw, and
no surrounding try/catch exists there, so the exception escapes the
route code (modelled as `Except.error`) — then validates it against
`depthLimit(5)` and, on violation, replies with the error list alone,
skipping the handler, so no fetch is issued; otherwise the handler runs
the query.  The input is the parse outcome: `none` for an unparsable
query, `some q` for the parsed shape. -/
def route (fails : Op → Bool) (s : Store) :
    Option (List Sel) → Except String (GqlResult × FetchLog × Store)
  | none => .error parseFailureMessage
  | some q =>
      if maxDepth < depthSels q then
        .ok (⟨none, [⟨[], depthExceededMessage⟩]⟩, [], s)
      else
        .ok (graphqlExec fails s q)

/-- The engine boundary `execute(queryShape, maxDepth) -> (document,
errorList)` of spec section 6, for an already-parsed query: the route
on `some q`, keeping the response and the resulting store. -/
def executeQ (fails : Op → Bool) (s : Store) (q : List Sel) :
    GqlResult × Store :=
  match route fails s (some q) with
  | .ok (r, _, s2) => (r, s2)
  | .error e => (⟨none, [⟨[], e⟩]⟩, s)

/-- The try/catch of the route handler (`src/unnamed/part_001`
lines 477-497): a thrown error is converted into a structured response
whose error list carries the exception's message and which has no data
document. -/
def handlerCatch : Except String GqlResult → GqlResult
  | .ok r => r
  | .error e => ⟨none, [⟨[], e⟩]⟩

theorem queryFieldOp_reads (n : String) (a : Option String)
    (op : Op) (h : queryFieldOp n a = some op) : opReads op = true := by
  unfold queryFieldOp at h
  split at h <;> cases h <;> rfl

theorem userFieldOp_reads (n : String) (p : JValue)
    (op : Op) (h : userFieldOp n p = some op) : opReads op = true := by
  unfold userFieldOp at h
  split at h <;> cases h <;> rfl

theorem fieldOp_reads (t n : String) (a : Option String) (p : JValue)
    (op : Op) (h : fieldOp t n a p = some op) : opReads op = true := by
  unfold fieldOp at h
  by_cases h1 : t = "Query"
  · exact queryFieldOp_reads n a op (by simpa [h1] using h)
  · by_cases h2 : t = "User"
    · exact userFieldOp_reads n p op (by simpa [h1, h2] using h)
    · simp [h1, h2] at h

theorem completeElems_log_reads (k : ObjExec) (fails : Op → Bool)
    (s : Store) (t : String)
    (hk : ∀ f st t2 p, ∀ e ∈ (k f st t2 p).log, opReads e.2 = true) :
    ∀ (i : Nat) (xs : List JValue),
      ∀ e ∈ (completeElems k fails s t i xs).2.2, opReads e.2 = true := by
  intro i xs
  induction xs generalizing i with
  | nil => intro e he; simp [completeElems] at he
  | cons x rest ih =>
      intro e he
      simp only [completeElems] at he
      rw [List.mem_append] at he
      rcases he with he | he
      · cases x with
        | obj fs =>
            simp only [prefLog, List.mem_map] at he
            obtain ⟨q, hq, rfl⟩ := he
            exact hk fails s t (.obj fs) q hq
        | null => simp at he
        | str a => simp at he
        | int a => simp at he
        | bool a => simp at he
        | arr a => simp at he
      · exact ih (i + 1) e he

theorem completeVal_log_reads (kind : FKind) (k : ObjExec)
    (fails : Op → Bool) (s : Store) (v : JValue)
    (hk : ∀ f st t p, ∀ e ∈ (k f st t p).log, opReads e.2 = true) :
    ∀ e ∈ (completeVal kind k fails s v).2.2, opReads e.2 = true := by
  intro e he
  cases kind with
  | scalar => simp [completeVal] at he
  | one t =>
      cases v <;> simp [completeVal] at he
      exact hk _ _ _ _ e he
  | many t =>
      cases v with
      | arr xs =>
          simp only [completeVal] at he
          exact completeElems_log_reads k fails s t hk 0 xs e he
      | null => simp [completeVal] at he
      | str _ => simp [completeVal] at he
      | int _ => simp [completeVal] at he
      | bool _ => simp [completeVal] at he
      | obj _ => simp [completeVal] at he

theorem exec_log_reads :
    (∀ sel (fails : Op → Bool) (s : Store) (t : String) (parent : JValue),
      ∀ e ∈ (execSel sel fails s t parent).log, opReads e.2 = true) ∧
    (∀ sels (fails : Op → Bool) (s : Store) (t : String) (parent : JValue),
      ∀ e ∈ (execSels sels fails s t parent).log, opReads e.2 = true) := by
  refine Sel.inductionOn
    (fun sel => ∀ fails s t parent,
      ∀ e ∈ (execSel sel fails s t parent).log, opReads e.2 = true)
    (fun sels => ∀ fails s t parent,
      ∀ e ∈ (execSels sels fails s t parent).log, opReads e.2 = true)
    ?_ ?_ ?_
  · intro n a sub ih fails s t parent e he
    rcases hop : fieldOp t n a parent with _ | op
    · simp only [execSel, hop, prefLog] at he
      rcases List.mem_map.mp he with ⟨q, hq, rfl⟩
      exact completeVal_log_reads _ _ _ _ _ (fun f st t2 p2 => ih f st t2 p2) q hq
    · by_cases hf : fails op = true
      · simp only [execSel, hop] at he
        rw [if_pos hf] at he
        simp only [List.mem_singleton] at he
        rw [he]
        exact fieldOp_reads t n a parent op hop
      · simp only [execSel, hop] at he
        rw [if_neg hf] at he
        simp only [prefLog, List.mem_cons] at he
        rcases he with h1 | he
        · rw [h1]
          exact fieldOp_reads t n a parent op hop
        · rcases List.mem_map.mp he with ⟨q, hq, rfl⟩
          exact completeVal_log_reads _ _ _ _ _ (fun f st t2 p2 => ih f st t2 p2) q hq
  · intro fails s t parent e he
    simp [execSels] at he
  · intro sel rest ih1 ih2 fails s t parent e he
    simp only [execSels, List.mem_append] at he
    rcases he with he | he
    · exact ih1 fails s t parent e he
    · exact ih2 fails s t parent e he

theorem graphqlExec_store_eq (fails : Op → Bool) (s : Store) (q : List Sel) :
    (graphqlExec fails s q).2.2 = s := by
  apply applyOps_reads
  intro op hop
  rcases List.mem_map.mp hop with ⟨e, he, rfl⟩
  exact exec_log_reads.2 q fails s "Query" .null e he

theorem executeQ_store_eq (fails : Op → Bool) (s : Store) (q : List Sel) :
    (executeQ fails s q).2 = s := by
  unfold executeQ route
  by_cases h : maxDepth < depthSels q
  · simp [h]
  · simp [h, graphqlExec_store_eq]

/-- An empty data store. -/
def emptyStore : Store := ⟨[], [], [], [], []⟩

/-- C10: every Query-root operation (memberTypes, posts, users, profiles,
memberType, post, user, profile) leaves the data store unchanged: for
every starting store, every failure set and every query shape, the
store after execution equals the starting store, and every Prisma call
the execution issues is a read (`findMany`/`findUnique`), never a
create, update or delete. -/
theorem query_roots_leave_store_unchanged (fails : Op → Bool) (s : Store)
    (q : List Sel) :
    (executeQ fails s q).2 = s ∧
    ∀ e ∈ (graphqlExec fails s q).2.1, opReads e.2 = true :=
  ⟨executeQ_store_eq fails s q,
   fun e he => exec_log_reads.2 q fails s "Query" .null e he⟩

/-- C9: executing the same query shape twice in sequence, with the
storage collaborator held fixed (same failure set, the second run
starting from the store the first run left behind), yields identical
response documents and error lists. -/
theorem same_query_twice_byte_identical (fails : Op → Bool) (s : Store)
    (q : List Sel) :
    (executeQ fails ((executeQ fails s q).2) q).1 = (executeQ fails s q).1 := by
  rw [executeQ_store_eq]

/-- C2: a query shape whose depth exceeds `maxDepth` (5) is rejected by
the pre-handler: the route replies with no document and exactly one
Request-rejected error, issues no fetch (empty fetch log) and leaves
the store untouched — the handler never runs. -/
theorem depth_exceeded_rejected (fails : Op → Bool) (s : Store)
    (q : List Sel) (h : maxDepth < depthSels q) :
    route fails s (some q) =
      .ok (⟨none, [⟨[], depthExceededMessage⟩]⟩, [], s) := by
  simp [route, h]

/-- A chain of six nested relation selections:
`user { userSubscribedTo { ... { id } } }` six levels deep. -/
def qDeepSix : List Sel :=
  [.mk "user" (some "u1")
    [.mk "userSubscribedTo" none
      [.mk "userSubscribedTo" none
        [.mk "userSubscribedTo" none
          [.mk "userSubscribedTo" none
            [.mk "userSubscribedTo" none
              [.mk "id" none []]]]]]]]

/-- Witness for C2: the depth-six query exceeds the ceiling and the route
rejects it with a single error, no document and no fetch. -/
theorem depth_exceeded_rejected_witness :
    maxDepth < depthSels qDeepSix ∧
    route (fun _ => false) emptyStore (some qDeepSix) =
      .ok (⟨none, [⟨[], depthExceededMessage⟩]⟩, [], emptyStore) :=
  ⟨by decide,
   depth_exceeded_rejected (fun _ => false) emptyStore qDeepSix (by decide)⟩

/-- Whether a Prisma call is a `userSubscribedTo` relation fetch — the
(User, subscribed-to lookup) entity-type/lookup-kind pair. -/
def isSubscribedToFetch : Op → Bool
  | .findManyUsersSubscribedTo _ => true
  | _ => false

/-- Number of `userSubscribedTo` relation fetches in a fetch log. -/
def subscribedToFetchCount (log : FetchLog) : Nat :=
  log.countP (fun e => isSubscribedToFetch e.2)

/-- The query `users { userSubscribedTo { id } }`: one sibling
`userSubscribedTo` lookup per user returned by the `users` root query. -/
def qUsersSubscribedTo : List Sel :=
  [.mk "users" none [.mk "userSubscribedTo" none [.mk "id" none []]]]

/-- A store with two users, the first subscribed to the second. -/
def storeTwoUsers : Store :=
  { users := [⟨"u1", "alice", 10⟩, ⟨"u2", "bob", 20⟩],
    posts := [], profiles := [], memberTypes := [],
    subscribersOnAuthors := [⟨"u1", "u2"⟩] }

set_option maxRecDepth 10000 in
set_option maxHeartbeats 1000000 in
/-- Counterexample for C1: with two users returned by the `users` root
query, resolving the sibling `userSubscribedTo` lookups issues two
fetches to the storage collaborator for the (User, subscribed-to) pair
— not exactly one, as the claim states. -/
theorem two_sibling_lookups_two_fetches :
    subscribedToFetchCount
        (graphqlExec (fun _ => false) storeTwoUsers qUsersSubscribedTo).2.1 = 2 ∧
    ¬ subscribedToFetchCount
        (graphqlExec (fun _ => false) storeTwoUsers qUsersSubscribedTo).2.1 = 1 := by
  exact ⟨by decide, by decide⟩

theorem subCount_prefLog (seg : PathSeg) (l : FetchLog) :
    subscribedToFetchCount (prefLog seg l) = subscribedToFetchCount l := by
  simp only [subscribedToFetchCount, prefLog, List.countP_map]
  rfl

theorem subCount_append (a b : FetchLog) :
    subscribedToFetchCount (a ++ b) =
      subscribedToFetchCount a + subscribedToFetchCount b := by
  simp [subscribedToFetchCount, List.countP_append]

theorem subCount_cons (e : QPath × Op) (l : FetchLog) :
    subscribedToFetchCount (e :: l) =
      (if isSubscribedToFetch e.2 = true then 1 else 0) +
        subscribedToFetchCount l := by
  simp [subscribedToFetchCount, List.countP_cons, Nat.add_comm]

theorem execSels_idOnly_log_nil (fails : Op → Bool) (s : Store)
    (parent : JValue) :
    (execSels [Sel.mk "id" none []] fails s "User" parent).log = [] := rfl

theorem completeElems_idOnly_log_nil (fails : Op → Bool) (s : Store) :
    ∀ (i : Nat) (rows : List JValue),
      (completeElems (execSels [Sel.mk "id" none []]) fails s "User" i
        rows).2.2 = [] := by
  intro i rows
  induction rows generalizing i with
  | nil => rfl
  | cons x rest ih =>
      cases x <;>
        simp [completeElems, prefLog, execSels_idOnly_log_nil, ih]

theorem subCount_subToSel_one (fails : Op → Bool) (s : Store)
    (parent : JValue) :
    subscribedToFetchCount
      (execSels [Sel.mk "userSubscribedTo" none [Sel.mk "id" none []]]
        fails s "User" parent).log = 1 := by
  have e1 : (execSels [Sel.mk "userSubscribedTo" none [Sel.mk "id" none []]]
        fails s "User" parent).log =
      (execSel (Sel.mk "userSubscribedTo" none [Sel.mk "id" none []])
        fails s "User" parent).log := by
    simp [execSels]
  rw [e1]
  by_cases hf :
      fails (.findManyUsersSubscribedTo (getStr (getProp parent "id"))) = true
  · have e2 : (execSel (Sel.mk "userSubscribedTo" none [Sel.mk "id" none []])
          fails s "User" parent).log =
        [([PathSeg.fld "userSubscribedTo"],
          Op.findManyUsersSubscribedTo (getStr (getProp parent "id")))] := by
      simp only [execSel,
        show fieldOp "User" "userSubscribedTo" none parent =
          some (.findManyUsersSubscribedTo (getStr (getProp parent "id")))
          from rfl,
        hf, eq_self_iff_true, if_true]
    rw [e2]
    rfl
  · have e2 : (execSel (Sel.mk "userSubscribedTo" none [Sel.mk "id" none []])
          fails s "User" parent).log =
        ([PathSeg.fld "userSubscribedTo"],
         Op.findManyUsersSubscribedTo (getStr (getProp parent "id"))) ::
          prefLog (.fld "userSubscribedTo")
            (completeElems (execSels [Sel.mk "id" none []]) fails s "User" 0
              ((usersSubscribedToOf s
                  (getStr (getProp parent "id"))).map userJ)).2.2 := by
      simp only [execSel,
        show fieldOp "User" "userSubscribedTo" none parent =
          some (.findManyUsersSubscribedTo (getStr (getProp parent "id")))
          from rfl]
      rw [if_neg hf]
      simp only [show (fieldKind "User" "userSubscribedTo").getD FKind.scalar =
          FKind.many "User" from rfl,
        show (runOp (Op.findManyUsersSubscribedTo
            (getStr (getProp parent "id"))) s).1 =
          JValue.arr ((usersSubscribedToOf s
            (getStr (getProp parent "id"))).map userJ) from rfl,
        completeVal]
    rw [e2, completeElems_idOnly_log_nil]
    rfl

theorem subCount_rows (fails : Op → Bool) (s : Store) (i : Nat)
    (us : List UserRow) :
    subscribedToFetchCount
      (completeElems
        (execSels [Sel.mk "userSubscribedTo" none [Sel.mk "id" none []]])
        fails s "User" i (us.map (userIncludeJ s))).2.2 = us.length := by
  induction us generalizing i with
  | nil => rfl
  | cons u rest ih =>
      have e1 : (completeElems
            (execSels [Sel.mk "userSubscribedTo" none [Sel.mk "id" none []]])
            fails s "User" i ((u :: rest).map (userIncludeJ s))).2.2 =
          prefLog (.idx i)
            (execSels [Sel.mk "userSubscribedTo" none [Sel.mk "id" none []]]
              fails s "User" (userIncludeJ s u)).log ++
          (completeElems
            (execSels [Sel.mk "userSubscribedTo" none [Sel.mk "id" none []]])
            fails s "User" (i + 1) (rest.map (userIncludeJ s))).2.2 := rfl
      rw [e1, subCount_append, subCount_prefLog, subCount_subToSel_one, ih]
      simp [Nat.add_comm]

/-- C1 amended: N sibling `userSubscribedTo` relation lookups of the same
entity type and lookup kind within one request issue N fetch calls to
the storage collaborator — one filtered `findMany` per parent user —
with no batching: for every store, executing
`users { userSubscribedTo { id } }` issues exactly `s.users.length`
fetches of the (User, subscribed-to) pair. -/
theorem sibling_lookups_fetch_per_user (s : Store) :
    subscribedToFetchCount
      (graphqlExec (fun _ => false) s qUsersSubscribedTo).2.1 =
      s.users.length := by
  have h1 : (graphqlExec (fun _ => false) s qUsersSubscribedTo).2.1 =
      ([PathSeg.fld "users"], Op.findManyUsersInclude) ::
        (prefLog (.fld "users")
          (completeElems
            (execSels [Sel.mk "userSubscribedTo" none [Sel.mk "id" none []]])
            (fun _ => false) s "User" 0 (s.users.map (userIncludeJ s))).2.2
          ++ []) := rfl
  rw [h1, List.append_nil, subCount_cons, subCount_prefLog, subCount_rows]
  simp [isSubscribedToFetch]

/-- A store with users A, B, C where A is subscribed to B and B is
subscribed to C. -/
def storeABC : Store :=
  { users := [⟨"A", "a", 1⟩, ⟨"B", "b", 2⟩, ⟨"C", "c", 3⟩],
    posts := [], profiles := [], memberTypes := [],
    subscribersOnAuthors := [⟨"A", "B"⟩, ⟨"B", "C"⟩] }

/-- The query `user(id: "A") { userSubscribedTo { id userSubscribedTo { id } } }`:
A's `userSubscribedTo` nested two levels. -/
def qUserTwoLevels : List Sel :=
  [.mk "user" (some "A")
    [.mk "userSubscribedTo" none
      [.mk "id" none [],
       .mk "userSubscribedTo" none [.mk "id" none []]]]]

set_option maxRecDepth 10000 in
set_option maxHeartbeats 1000000 in
/-- C4: with users A, B, C where A is subscribed to B and B to C,
resolving A's `userSubscribedTo` down two levels returns
`[{id: B, userSubscribedTo: [{id: C}]}]`, with no errors. -/
theorem self_referential_two_levels :
    (executeQ (fun _ => false) storeABC qUserTwoLevels).1.data =
      some (.obj [("user", .obj [("userSubscribedTo", .arr
        [.obj [("id", .str "B"),
               ("userSubscribedTo", .arr [.obj [("id", .str "C")]])]])])]) ∧
    (executeQ (fun _ => false) storeABC qUserTwoLevels).1.errors = [] :=
  ⟨rfl, rfl⟩

/-- The `users` root-query entry shape of
`src/src/routes/graphql/index.ts` (lines 151-161): the same
`include: { profile: { include: { memberType: true } }, posts: true }`
shape — in particular, no `userSubscribedTo` key is present on it. -/
def indexTsUsersEntry (s : Store) (u : UserRow) : JValue := userIncludeJ s u

/-- The `resolvers.Query.user` of `src/src/routes/graphql/index.ts`
(lines 176-232): `findUnique` with the deep subscription include, then
the ad-hoc `transformedEntry` reshaping that re-projects
`userSubscribedTo` into `{id: author.id, subscribedToUser: [{id:
subscriber.id}]}` objects and `subscribedToUser` into the mirror-image
shape; `null` when the id is absent. -/
def indexTsUserEntry (s : Store) (id : String) : Option JValue :=
  match s.users.find? (fun u => u.id == id) with
  | none => none
  | some u => some (.obj (userIncludeFieldsJ s u ++
      [("userSubscribedTo",
        .arr ((s.subscribersOnAuthors.filter
                (fun r => r.subscriberId == u.id)).map (fun r =>
          match s.users.find? (fun x => x.id == r.authorId) with
          | some author => JValue.obj [("id", .str author.id),
              ("subscribedToUser",
               .arr ((s.subscribersOnAuthors.filter
                       (fun r2 => r2.authorId == author.id)).map (fun r2 =>
                 match s.users.find? (fun x => x.id == r2.subscriberId) with
                 | some subscr => JValue.obj [("id", .str subscr.id)]
                 | none => JValue.null)))]
          | none => JValue.null))),
       ("subscribedToUser",
        .arr ((s.subscribersOnAuthors.filter
                (fun r => r.authorId == u.id)).map (fun r =>
          match s.users.find? (fun x => x.id == r.subscriberId) with
          | some subscr => JValue.obj [("id", .str subscr.id),
              ("userSubscribedTo",
               .arr ((s.subscribersOnAuthors.filter
                       (fun r2 => r2.subscriberId == subscr.id)).map (fun r2 =>
                 match s.users.find? (fun x => x.id == r2.authorId) with
                 | some author => JValue.obj [("id", .str author.id)]
                 | none => JValue.null)))]
          | none => JValue.null)))]))

set_option maxRecDepth 10000 in
/-- C5 failing-input evaluation: for the same user u1 (subscribed to u2),
the `user(id)` root of `src/src/routes/graphql/index.ts` supplies a
reshaped `userSubscribedTo` value while the generic `users` root
supplies none at all (the default property read yields null), so the
two root query paths resolve the same relation field of the same user
differently — resolution is special-cased by root query name. -/
theorem user_lookup_reshaping_nonuniform :
    getProp ((indexTsUserEntry storeTwoUsers "u1").getD .null)
        "userSubscribedTo" =
      .arr [.obj [("id", .str "u2"),
                  ("subscribedToUser", .arr [.obj [("id", .str "u1")]])]] ∧
    getProp (indexTsUsersEntry storeTwoUsers ⟨"u1", "alice", 10⟩)
        "userSubscribedTo" = .null ∧
    JValue.arr [.obj [("id", .str "u2"),
                  ("subscribedToUser", .arr [.obj [("id", .str "u1")]])]] ≠
      JValue.null :=
  ⟨rfl, rfl, fun h => JValue.noConfusion h⟩

theorem runOp_user_val (s : Store) (id : String) :
    (runOp (.findUniqueUserInclude id) s).1 =
      (match s.users.find? (fun u => u.id == id) with
       | some u => userUniqueIncludeJ s u
       | none => .null) := rfl

theorem runOp_post_val (s : Store) (id : String) :
    (runOp (.findUniquePost id) s).1 =
      (match s.posts.find? (fun p => p.id == id) with
       | some p => postJ p
       | none => .null) := rfl

theorem runOp_profile_val (s : Store) (id : String) :
    (runOp (.findUniqueProfile id) s).1 =
      (match s.profiles.find? (fun p => p.id == id) with
       | some p => profileJ p
       | none => .null) := rfl

theorem runOp_memberType_val (s : Store) (id : String) :
    (runOp (.findUniqueMemberType id) s).1 =
      (match s.memberTypes.find? (fun m => m.id == id) with
       | some m => memberTypeJ m
       | none => .null) := rfl

theorem runOp_subscribedTo_val (s : Store) (x : String) :
    (runOp (.findManyUsersSubscribedTo x) s).1 =
      .arr ((usersSubscribedToOf s x).map userJ) := rfl

/-- C6: requesting a single entity by an id that is not in the store —
`user(id)`, `post(id)`, `profile(id)`, `memberType(id)` — resolves that
node to null with an empty error list (the lookup fetch is still
issued; absence itself is never an error), and a many-cardinality
relation lookup (`userSubscribedTo`) whose source user has no
subscription rows resolves to the empty sequence, again with no
error. -/
theorem not_found_is_null_not_error (s : Store) (id : String)
    (sub : List Sel) (u : UserRow) :
    ((∀ x ∈ s.users, x.id ≠ id) →
      execSels [Sel.mk "user" (some id) sub] (fun _ => false) s "Query"
          .null =
        ⟨[("user", .null)], [],
         [([PathSeg.fld "user"], .findUniqueUserInclude id)]⟩) ∧
    ((∀ x ∈ s.posts, x.id ≠ id) →
      execSels [Sel.mk "post" (some id) sub] (fun _ => false) s "Query"
          .null =
        ⟨[("post", .null)], [],
         [([PathSeg.fld "post"], .findUniquePost id)]⟩) ∧
    ((∀ x ∈ s.profiles, x.id ≠ id) →
      execSels [Sel.mk "profile" (some id) sub] (fun _ => false) s "Query"
          .null =
        ⟨[("profile", .null)], [],
         [([PathSeg.fld "profile"], .findUniqueProfile id)]⟩) ∧
    ((∀ x ∈ s.memberTypes, x.id ≠ id) →
      execSels [Sel.mk "memberType" (some id) sub] (fun _ => false) s "Query"
          .null =
        ⟨[("memberType", .null)], [],
         [([PathSeg.fld "memberType"], .findUniqueMemberType id)]⟩) ∧
    ((∀ r ∈ s.subscribersOnAuthors, r.subscriberId ≠ u.id) →
      execSel (Sel.mk "userSubscribedTo" none sub) (fun _ => false) s "User"
          (userJ u) =
        ⟨.arr [], [],
         [([PathSeg.fld "userSubscribedTo"],
           .findManyUsersSubscribedTo u.id)]⟩) := by
  refine ⟨?_, ?_, ?_, ?_, ?_⟩
  · intro h
    have hf : s.users.find? (fun x => x.id == id) = none :=
      List.find?_eq_none.mpr (fun x hx => by simp [h x hx])
    have hr : (runOp (.findUniqueUserInclude id) s).1 = JValue.null := by
      rw [runOp_user_val, hf]
    have e1 : execSels [Sel.mk "user" (some id) sub] (fun _ => false) s
        "Query" .null =
        ⟨[("user", (completeVal (.one "User") (execSels sub) (fun _ => false)
            s ((runOp (.findUniqueUserInclude id) s).1)).1)],
         prefErrs (.fld "user") (completeVal (.one "User") (execSels sub)
            (fun _ => false) s
            ((runOp (.findUniqueUserInclude id) s).1)).2.1 ++ [],
         (([PathSeg.fld "user"], Op.findUniqueUserInclude id) ::
           prefLog (.fld "user") (completeVal (.one "User") (execSels sub)
             (fun _ => false) s
             ((runOp (.findUniqueUserInclude id) s).1)).2.2) ++ []⟩ := rfl
    rw [e1, hr]
    rfl
  · intro h
    have hf : s.posts.find? (fun x => x.id == id) = none :=
      List.find?_eq_none.mpr (fun x hx => by simp [h x hx])
    have hr : (runOp (.findUniquePost id) s).1 = JValue.null := by
      rw [runOp_post_val, hf]
    have e1 : execSels [Sel.mk "post" (some id) sub] (fun _ => false) s
        "Query" .null =
        ⟨[("post", (completeVal (.one "Post") (execSels sub) (fun _ => false)
            s ((runOp (.findUniquePost id) s).1)).1)],
         prefErrs (.fld "post") (completeVal (.one "Post") (execSels sub)
            (fun _ => false) s ((runOp (.findUniquePost id) s).1)).2.1 ++ [],
         (([PathSeg.fld "post"], Op.findUniquePost id) ::
           prefLog (.fld "post") (completeVal (.one "Post") (execSels sub)
             (fun _ => false) s
             ((runOp (.findUniquePost id) s).1)).2.2) ++ []⟩ := rfl
    rw [e1, hr]
    rfl
  · intro h
    have hf : s.profiles.find? (fun x => x.id == id) = none :=
      List.find?_eq_none.mpr (fun x hx => by simp [h x hx])
    have hr : (runOp (.findUniqueProfile id) s).1 = JValue.null := by
      rw [runOp_profile_val, hf]
    have e1 : execSels [Sel.mk "profile" (some id) sub] (fun _ => false) s
        "Query" .null =
        ⟨[("profile", (completeVal (.one "Profile") (execSels sub)
            (fun _ => false) s ((runOp (.findUniqueProfile id) s).1)).1)],
         prefErrs (.fld "profile") (completeVal (.one "Profile")
            (execSels sub) (fun _ => false) s
            ((runOp (.findUniqueProfile id) s).1)).2.1 ++ [],
         (([PathSeg.fld "profile"], Op.findUniqueProfile id) ::
           prefLog (.fld "profile") (completeVal (.one "Profile")
             (execSels sub) (fun _ => false) s
             ((runOp (.findUniqueProfile id) s).1)).2.2) ++ []⟩ := rfl
    rw [e1, hr]
    rfl
  · intro h
    have hf : s.memberTypes.find? (fun x => x.id == id) = none :=
      List.find?_eq_none.mpr (fun x hx => by simp [h x hx])
    have hr : (runOp (.findUniqueMemberType id) s).1 = JValue.null := by
      rw [runOp_memberType_val, hf]
    have e1 : execSels [Sel.mk "memberType" (some id) sub] (fun _ => false) s
        "Query" .null =
        ⟨[("memberType", (completeVal (.one "MemberType") (execSels sub)
            (fun _ => false) s ((runOp (.findUniqueMemberType id) s).1)).1)],
         prefErrs (.fld "memberType") (completeVal (.one "MemberType")
            (execSels sub) (fun _ => false) s
            ((runOp (.findUniqueMemberType id) s).1)).2.1 ++ [],
         (([PathSeg.fld "memberType"], Op.findUniqueMemberType id) ::
           prefLog (.fld "memberType") (completeVal (.one "MemberType")
             (execSels sub) (fun _ => false) s
             ((runOp (.findUniqueMemberType id) s).1)).2.2) ++ []⟩ := rfl
    rw [e1, hr]
    rfl
  · intro h
    have hemp : usersSubscribedToOf s u.id = [] := by
      unfold usersSubscribedToOf
      rw [List.filter_eq_nil_iff]
      intro x hx
      simp only [List.any_eq_true, not_exists]
      rintro r hmem
      rcases hmem with ⟨hr, hpr⟩
      have h2 := h r hr
      simp only [Bool.and_eq_true, beq_iff_eq] at hpr
      exact h2 hpr.1
    have hr : (runOp (.findManyUsersSubscribedTo u.id) s).1 =
        JValue.arr [] := by
      rw [runOp_subscribedTo_val, hemp]
      rfl
    have e1 : execSel (Sel.mk "userSubscribedTo" none sub) (fun _ => false) s
        "User" (userJ u) =
        ⟨(completeVal (.many "User") (execSels sub) (fun _ => false) s
            ((runOp (.findManyUsersSubscribedTo u.id) s).1)).1,
         prefErrs (.fld "userSubscribedTo") (completeVal (.many "User")
            (execSels sub) (fun _ => false) s
            ((runOp (.findManyUsersSubscribedTo u.id) s).1)).2.1,
         ([PathSeg.fld "userSubscribedTo"],
           Op.findManyUsersSubscribedTo u.id) ::
           prefLog (.fld "userSubscribedTo") (completeVal (.many "User")
             (execSels sub) (fun _ => false) s
             ((runOp (.findManyUsersSubscribedTo u.id) s).1)).2.2⟩ := rfl
    rw [e1, hr]
    rfl

/-- Witness for C6: in the empty store, `user("nope")` resolves to null
with no error, and so do `post`, `profile` and `memberType` lookups;
the `userSubscribedTo` relation of a user with no subscription rows
resolves to the empty sequence. -/
theorem not_found_is_null_not_error_witness :
    execSels [Sel.mk "user" (some "nope") [Sel.mk "id" none []]]
        (fun _ => false) emptyStore "Query" .null =
      ⟨[("user", .null)], [],
       [([PathSeg.fld "user"], .findUniqueUserInclude "nope")]⟩ ∧
    execSel (Sel.mk "userSubscribedTo" none [Sel.mk "id" none []])
        (fun _ => false) emptyStore "User" (userJ ⟨"lone", "x", 0⟩) =
      ⟨.arr [], [],
       [([PathSeg.fld "userSubscribedTo"],
         .findManyUsersSubscribedTo "lone")]⟩ :=
  ⟨(not_found_is_null_not_error emptyStore "nope" [Sel.mk "id" none []]
      ⟨"lone", "x", 0⟩).1 (by decide),
   (not_found_is_null_not_error emptyStore "nope" [Sel.mk "id" none []]
      ⟨"lone", "x", 0⟩).2.2.2.2 (by decide)⟩

/-- C8 failing-input evaluation: a query that fails to parse makes the
pre-handler's `parse(query)` throw; no try/catch surrounds it
(`src/unnamed/part_001` lines 464-473), so the exception escapes the
route code to the transport layer instead of being returned as
structured data.  The handler's own try/catch (lines 477-497), embodied
by `handlerCatch`, would have converted any thrown error into a
structured response — but the pre-handler runs outside it. -/
theorem malformed_query_exception_escapes :
    route (fun _ => false) emptyStore none =
      Except.error parseFailureMessage ∧
    (∀ msg, handlerCatch (.error msg) = ⟨none, [⟨[], msg⟩]⟩) ∧
    (∀ r, handlerCatch (.ok r) = r) :=
  ⟨rfl, fun _ => rfl, fun _ => rfl⟩

/-- Argument discipline of valid query shapes: the single-entity root
fields take an `id` argument; every other field takes none. -/
def argOk (t n : String) (a : Option String) : Bool :=
  if t = "Query" then
    (match n with
     | "memberType" => a.isSome
     | "post" => a.isSome
     | "user" => a.isSome
     | "profile" => a.isSome
     | _ => a.isNone)
  else a.isNone

mutual
/-- A query-shape node is valid on an object type when the field exists
in the schema, a scalar field carries no nested selection, a relation
field carries a non-empty nested selection valid on its target type,
and the argument discipline holds (schema validation is assumed done by
an external collaborator before the engine runs — spec section 3). -/
def validSel : String → Sel → Bool
  | t, .mk n a sub =>
    match fieldKind t n with
    | none => false
    | some .scalar => sub.isEmpty && argOk t n a
    | some (.one t2) => (!sub.isEmpty) && argOk t n a && validSels t2 sub
    | some (.many t2) => (!sub.isEmpty) && argOk t n a && validSels t2 sub

/-- Validity of a selection list: every node valid. -/
def validSels : String → List Sel → Bool
  | _, [] => true
  | t, sel :: rest => validSel t sel && validSels t rest
end

mutual
/-- Whether a resolved field value mirrors a query-shape node: a leaf
(scalar selection) accepts any value; a relation selection accepts
null (not-found or a failed fetch), an object mirroring the nested
selection, or an array whose elements are null or mirror the nested
selection. -/
def mirrorsSel : Sel → JValue → Bool
  | .mk _ _ sub => fun v =>
    match sub with
    | [] => true
    | s0 :: rest =>
      match v with
      | .null => true
      | .obj fs => mirrorsSels (s0 :: rest) fs
      | .arr xs =>
          xs.all (fun x =>
            match x with
            | .null => true
            | .obj fs => mirrorsSels (s0 :: rest) fs
            | _ => false)
      | _ => false

/-- Whether an object's fields mirror a selection list: same field names
in the same order, each value mirroring its node. -/
def mirrorsSels : List Sel → List (String × JValue) → Bool
  | [], fs => fs.isEmpty
  | sel :: rest, fs =>
    match fs with
    | [] => false
    | (n, v) :: fs2 => (n == sel.name) && mirrorsSel sel v && mirrorsSels rest fs2
end

/-- A response document mirrors the root selection list when it is an
object whose fields mirror it. -/
def docMirrors : Option JValue → List Sel → Bool
  | some (.obj fs), sels => mirrorsSels sels fs
  | _, _ => false

theorem completeElems_elems_mirror (sub : List Sel) (t2 : String)
    (fails : Op → Bool) (s : Store)
    (hk : ∀ parent, mirrorsSels sub
      (execSels sub fails s t2 parent).fields = true) :
    ∀ (i : Nat) (xs : List JValue),
      ((completeElems (execSels sub) fails s t2 i xs).1).all (fun x =>
        match x with
        | .null => true
        | .obj fs => mirrorsSels sub fs
        | _ => false) = true := by
  intro i xs
  induction xs generalizing i with
  | nil => rfl
  | cons x rest ih =>
      cases x with
      | obj fs =>
          simp only [completeElems, List.all_cons, Bool.and_eq_true]
          exact ⟨hk (.obj fs), ih (i + 1)⟩
      | null => simpa [completeElems] using ih (i + 1)
      | str a => simpa [completeElems] using ih (i + 1)
      | int a => simpa [completeElems] using ih (i + 1)
      | bool a => simpa [completeElems] using ih (i + 1)
      | arr a => simpa [completeElems] using ih (i + 1)

theorem exec_mirrors :
    (∀ sel (t : String) (fails : Op → Bool) (s : Store) (parent : JValue),
        validSel t sel = true →
        mirrorsSel sel (execSel sel fails s t parent).val = true) ∧
    (∀ sels (t : String) (fails : Op → Bool) (s : Store) (parent : JValue),
        validSels t sels = true →
        mirrorsSels sels (execSels sels fails s t parent).fields = true) := by
  refine Sel.inductionOn
    (fun sel => ∀ t fails s parent, validSel t sel = true →
      mirrorsSel sel (execSel sel fails s t parent).val = true)
    (fun sels => ∀ t fails s parent, validSels t sels = true →
      mirrorsSels sels (execSels sels fails s t parent).fields = true)
    ?_ ?_ ?_
  · intro n a sub ih t fails s parent hv
    unfold validSel at hv
    rcases hk : fieldKind t n with _ | k
    · rw [hk] at hv
      simp at hv
    · cases k with
      | scalar =>
          rw [hk] at hv
          simp only [Bool.and_eq_true, List.isEmpty_iff] at hv
          rcases hv with ⟨hsub, _⟩
          subst hsub
          rfl
      | one t2 =>
          rw [hk] at hv
          simp only [Bool.and_eq_true] at hv
          rcases hv with ⟨⟨hne, _⟩, hval2⟩
          rcases hsub : sub with _ | ⟨s0, rest⟩
          · rw [hsub] at hne
            simp at hne
          · subst hsub
            rcases hop : fieldOp t n a parent with _ | op
            · have e : (execSel (.mk n a (s0 :: rest)) fails s t parent).val =
                  (completeVal ((fieldKind t n).getD FKind.scalar)
                    (execSels (s0 :: rest)) fails s (getProp parent n)).1 := by
                simp only [execSel, hop]
              rw [e, hk, Option.getD_some]
              generalize getProp parent n = v0
              cases v0 with
              | obj fs => exact ih t2 fails s (.obj fs) hval2
              | null => rfl
              | str x => rfl
              | int x => rfl
              | bool x => rfl
              | arr x => rfl
            · by_cases hf : fails op = true
              · have e : (execSel (.mk n a (s0 :: rest)) fails s t parent).val =
                    JValue.null := by
                  simp only [execSel, hop]
                  rw [if_pos hf]
                rw [e]
                rfl
              · have e : (execSel (.mk n a (s0 :: rest)) fails s t parent).val =
                    (completeVal ((fieldKind t n).getD FKind.scalar)
                      (execSels (s0 :: rest)) fails s (runOp op s).1).1 := by
                  simp only [execSel, hop]
                  rw [if_neg hf]
                rw [e, hk, Option.getD_some]
                generalize (runOp op s).1 = v0
                cases v0 with
                | obj fs => exact ih t2 fails s (.obj fs) hval2
                | null => rfl
                | str x => rfl
                | int x => rfl
                | bool x => rfl
                | arr x => rfl
      | many t2 =>
          rw [hk] at hv
          simp only [Bool.and_eq_true] at hv
          rcases hv with ⟨⟨hne, _⟩, hval2⟩
          rcases hsub : sub with _ | ⟨s0, rest⟩
          · rw [hsub] at hne
            simp at hne
          · subst hsub
            have hall := completeElems_elems_mirror (s0 :: rest) t2 fails s
              (fun parent2 => ih t2 fails s parent2 hval2)
            rcases hop : fieldOp t n a parent with _ | op
            · have e : (execSel (.mk n a (s0 :: rest)) fails s t parent).val =
                  (completeVal ((fieldKind t n).getD FKind.scalar)
                    (execSels (s0 :: rest)) fails s (getProp parent n)).1 := by
                simp only [execSel, hop]
              rw [e, hk, Option.getD_some]
              generalize getProp parent n = v0
              cases v0 with
              | arr xs => exact hall 0 xs
              | null => rfl
              | str x => rfl
              | int x => rfl
              | bool x => rfl
              | obj fs => rfl
            · by_cases hf : fails op = true
              · have e : (execSel (.mk n a (s0 :: rest)) fails s t parent).val =
                    JValue.null := by
                  simp only [execSel, hop]
                  rw [if_pos hf]
                rw [e]
                rfl
              · have e : (execSel (.mk n a (s0 :: rest)) fails s t parent).val =
                    (completeVal ((fieldKind t n).getD FKind.scalar)
                      (execSels (s0 :: rest)) fails s (runOp op s).1).1 := by
                  simp only [execSel, hop]
                  rw [if_neg hf]
                rw [e, hk, Option.getD_some]
                generalize (runOp op s).1 = v0
                cases v0 with
                | arr xs => exact hall 0 xs
                | null => rfl
                | str x => rfl
                | int x => rfl
                | bool x => rfl
                | obj fs => rfl
  · intro t fails s parent _
    rfl
  · intro sel rest ih1 ih2 t fails s parent hv
    simp only [validSels, Bool.and_eq_true] at hv
    rcases hv with ⟨hv1, hv2⟩
    have m1 := ih1 t fails s parent hv1
    have m2 := ih2 t fails s parent hv2
    simp [mirrorsSels, execSels, m1, m2]

theorem completeElems_errs_msg (k : ObjExec) (fails : Op → Bool)
    (s : Store) (t : String)
    (hk : ∀ f st t2 p, ∀ e ∈ (k f st t2 p).errs,
      e.message = fetchFailedMessage) :
    ∀ (i : Nat) (xs : List JValue),
      ∀ e ∈ (completeElems k fails s t i xs).2.1,
        e.message = fetchFailedMessage := by
  intro i xs
  induction xs generalizing i with
  | nil => intro e he; simp [completeElems] at he
  | cons x rest ih =>
      intro e he
      simp only [completeElems] at he
      rw [List.mem_append] at he
      rcases he with he | he
      · cases x with
        | obj fs =>
            simp only [prefErrs, List.mem_map] at he
            obtain ⟨q, hq, rfl⟩ := he
            exact hk fails s t (.obj fs) q hq
        | null => simp at he
        | str a => simp at he
        | int a => simp at he
        | bool a => simp at he
        | arr a => simp at he
      · exact ih (i + 1) e he

theorem completeVal_errs_msg (kind : FKind) (k : ObjExec)
    (fails : Op → Bool) (s : Store) (v : JValue)
    (hk : ∀ f st t p, ∀ e ∈ (k f st t p).errs,
      e.message = fetchFailedMessage) :
    ∀ e ∈ (completeVal kind k fails s v).2.1,
      e.message = fetchFailedMessage := by
  intro e he
  cases kind with
  | scalar => simp [completeVal] at he
  | one t =>
      cases v <;> simp [completeVal] at he
      exact hk _ _ _ _ e he
  | many t =>
      cases v with
      | arr xs =>
          simp only [completeVal] at he
          exact completeElems_errs_msg k fails s t hk 0 xs e he
      | null => simp [completeVal] at he
      | str _ => simp [completeVal] at he
      | int _ => simp [completeVal] at he
      | bool _ => simp [completeVal] at he
      | obj _ => simp [completeVal] at he

theorem exec_errs_msg :
    (∀ sel (fails : Op → Bool) (s : Store) (t : String) (parent : JValue),
      ∀ e ∈ (execSel sel fails s t parent).errs,
        e.message = fetchFailedMessage) ∧
    (∀ sels (fails : Op → Bool) (s : Store) (t : String) (parent : JValue),
      ∀ e ∈ (execSels sels fails s t parent).errs,
        e.message = fetchFailedMessage) := by
  refine Sel.inductionOn
    (fun sel => ∀ fails s t parent,
      ∀ e ∈ (execSel sel fails s t parent).errs,
        e.message = fetchFailedMessage)
    (fun sels => ∀ fails s t parent,
      ∀ e ∈ (execSels sels fails s t parent).errs,
        e.message = fetchFailedMessage)
    ?_ ?_ ?_
  · intro n a sub ih fails s t parent e he
    rcases hop : fieldOp t n a parent with _ | op
    · simp only [execSel, hop, prefErrs] at he
      rcases List.mem_map.mp he with ⟨q, hq, rfl⟩
      exact completeVal_errs_msg _ _ _ _ _ (fun f st t2 p2 => ih f st t2 p2)
        q hq
    · by_cases hf : fails op = true
      · simp only [execSel, hop] at he
        rw [if_pos hf] at he
        simp only [List.mem_singleton] at he
        rw [he]
      · simp only [execSel, hop] at he
        rw [if_neg hf] at he
        simp only [prefErrs] at he
        rcases List.mem_map.mp he with ⟨q, hq, rfl⟩
        exact completeVal_errs_msg _ _ _ _ _ (fun f st t2 p2 => ih f st t2 p2)
          q hq
  · intro fails s t parent e he
    simp [execSels] at he
  · intro sel rest ih1 ih2 fails s t parent e he
    simp only [execSels, List.mem_append] at he
    rcases he with he | he
    · exact ih1 fails s t parent e he
    · exact ih2 fails s t parent e he

/-- C7: for every valid query shape of depth at most `maxDepth`, the
route runs the handler (no depth rejection), the returned document is
an object whose shape mirrors the query shape — same field names, same
nesting, with null standing at relation nodes only for not-found or
failed fetches — and the error list contains no Request-rejected
(depth) error, for every failure set of the storage collaborator. -/
theorem valid_shapes_mirror_document (fails : Op → Bool) (s : Store)
    (q : List Sel) (hv : validSels "Query" q = true)
    (hd : depthSels q ≤ maxDepth) :
    route fails s (some q) = .ok (graphqlExec fails s q) ∧
    docMirrors (graphqlExec fails s q).1.data q = true ∧
    ∀ e ∈ (graphqlExec fails s q).1.errors,
      e.message ≠ depthExceededMessage := by
  refine ⟨?_, ?_, ?_⟩
  · simp only [route]
    rw [if_neg (by omega : ¬ maxDepth < depthSels q)]
  · exact exec_mirrors.2 q "Query" fails s .null hv
  · intro e he
    have hm := exec_errs_msg.2 q fails s "Query" .null e he
    rw [hm]
    decide

/-- Witness for C7: the two-level self-referential query is valid, has
depth 3 ≤ 5, executes without rejection against the A/B/C store, and
its document mirrors the query shape with no depth error. -/
theorem valid_shapes_mirror_document_witness :
    validSels "Query" qUserTwoLevels = true ∧
    depthSels qUserTwoLevels ≤ maxDepth ∧
    route (fun _ => false) storeABC (some qUserTwoLevels) =
      .ok (graphqlExec (fun _ => false) storeABC qUserTwoLevels) ∧
    docMirrors (graphqlExec (fun _ => false) storeABC
      qUserTwoLevels).1.data qUserTwoLevels = true ∧
    ∀ e ∈ (graphqlExec (fun _ => false) storeABC qUserTwoLevels).1.errors,
      e.message ≠ depthExceededMessage :=
  ⟨by decide, by decide,
   (valid_shapes_mirror_document (fun _ => false) storeABC qUserTwoLevels
     (by decide) (by decide)).1,
   (valid_shapes_mirror_document (fun _ => false) storeABC qUserTwoLevels
     (by decide) (by decide)).2.1,
   (valid_shapes_mirror_document (fun _ => false) storeABC qUserTwoLevels
     (by decide) (by decide)).2.2⟩

/-- Whether a Prisma call is a relation fetch (issued by one of the
`User` relation-field resolvers) rather than a root fetch. -/
def isRelationFetch : Op → Bool
  | .findManyUsersSubscribedTo _ => true
  | .findManyUsersSubscribers _ => true
  | _ => false

/-- The paths at which a given fetch call occurs in a fetch log. -/
def pathsOf (log : FetchLog) (c : Op) : List QPath :=
  log.filterMap (fun e => if e.2 = c then some e.1 else none)

/-- Rewrite the first field with the given name through `f`, leaving
every other field untouched. -/
def setFirst (fs : List (String × JValue)) (n : String)
    (f : JValue → JValue) : List (String × JValue) :=
  match fs with
  | [] => []
  | (m, v) :: rest =>
      if m = n then (m, f v) :: rest else (m, v) :: setFirst rest n f

/-- Rewrite the element at the given index through `f`, leaving every
other element untouched. -/
def setIdx (xs : List JValue) (i : Nat) (f : JValue → JValue) :
    List JValue :=
  match xs, i with
  | [], _ => []
  | x :: rest, 0 => f x :: rest
  | x :: rest, j + 1 => x :: setIdx rest j f

/-- Replace the subtree at the given path with null, leaving the rest of
the document untouched; a path that does not exist in the document
leaves it unchanged. -/
def nullAt : QPath → JValue → JValue
  | [], _ => .null
  | .fld n :: rest, .obj fs => .obj (setFirst fs n (nullAt rest))
  | .idx i :: rest, .arr xs => .arr (setIdx xs i (nullAt rest))
  | _, v => v

mutual
/-- Whether a query-shape node repeats no field name inside any of its
selection lists (duplicate selections would be merged by a real GraphQL
executor and are not modelled). -/
def nodupSel : Sel → Bool
  | .mk _ _ sub => nodupSels sub

/-- Whether a selection list has pairwise distinct field names, each
node itself duplicate-free. -/
def nodupSels : List Sel → Bool
  | [] => true
  | sel :: rest =>
      rest.all (fun x => !(x.name == sel.name)) && nodupSel sel &&
        nodupSels rest
end

theorem pathsOf_append (a b : FetchLog) (c : Op) :
    pathsOf (a ++ b) c = pathsOf a c ++ pathsOf b c := by
  simp [pathsOf, List.filterMap_append]

theorem pathsOf_prefLog (seg : PathSeg) (l : FetchLog) (c : Op) :
    pathsOf (prefLog seg l) c = (pathsOf l c).map (fun p => seg :: p) := by
  induction l with
  | nil => rfl
  | cons e rest ih =>
      by_cases h : e.2 = c
      · simp [pathsOf, prefLog, h] at ih ⊢
        exact ih
      · simp [pathsOf, prefLog, h] at ih ⊢
        exact ih

theorem append_eq_singleton_cases {α : Type} (a b : List α) (x : α)
    (h : a ++ b = [x]) :
    (a = [] ∧ b = [x]) ∨ (a = [x] ∧ b = []) := by
  cases a with
  | nil => exact Or.inl ⟨rfl, by simpa using h⟩
  | cons a1 as =>
      simp only [List.cons_append, List.cons.injEq] at h
      rcases h with ⟨rfl, h2⟩
      rcases List.append_eq_nil.mp h2 with ⟨rfl, rfl⟩
      exact Or.inr ⟨rfl, rfl⟩

theorem completeElems_clean_errs_nil (k : ObjExec) (s : Store)
    (t : String)
    (hk : ∀ p, (k (fun _ => false) s t p).errs = []) :
    ∀ (i : Nat) (xs : List JValue),
      (completeElems k (fun _ => false) s t i xs).2.1 = [] := by
  intro i xs
  induction xs generalizing i with
  | nil => rfl
  | cons x rest ih =>
      cases x <;> simp [completeElems, prefErrs, hk, ih]

theorem exec_clean_errs_nil :
    (∀ sel (s : Store) (t : String) (parent : JValue),
      (execSel sel (fun _ => false) s t parent).errs = []) ∧
    (∀ sels (s : Store) (t : String) (parent : JValue),
      (execSels sels (fun _ => false) s t parent).errs = []) := by
  refine Sel.inductionOn
    (fun sel => ∀ s t parent,
      (execSel sel (fun _ => false) s t parent).errs = [])
    (fun sels => ∀ s t parent,
      (execSels sels (fun _ => false) s t parent).errs = [])
    ?_ ?_ ?_
  · intro n a sub ih s t parent
    have hcv : ∀ (kd : FKind) (v : JValue),
        (completeVal kd (execSels sub) (fun _ => false) s v).2.1 = [] := by
      intro kd v
      cases kd with
      | scalar => rfl
      | one t2 => cases v <;> simp [completeVal, ih]
      | many t2 =>
          cases v <;> simp [completeVal]
          exact completeElems_clean_errs_nil (execSels sub) s t2
            (fun p => ih s t2 p) 0 _
    rcases hop : fieldOp t n a parent with _ | op
    · simp [execSel, hop, prefErrs, hcv]
    · simp [execSel, hop, prefErrs, hcv]
  · intro s t parent
    rfl
  · intro sel rest ih1 ih2 s t parent
    simp [execSels, ih1, ih2]

theorem pathsOf_cons_eq (e : QPath × Op) (l : FetchLog) (c : Op)
    (h : e.2 = c) : pathsOf (e :: l) c = e.1 :: pathsOf l c := by
  simp [pathsOf, h]

theorem pathsOf_cons_ne (e : QPath × Op) (l : FetchLog) (c : Op)
    (h : e.2 ≠ c) : pathsOf (e :: l) c = pathsOf l c := by
  simp [pathsOf, h]

theorem map_eq_singleton_cases {α β : Type} (f : α → β) (l : List α)
    (x : β) (h : l.map f = [x]) : ∃ a, l = [a] ∧ f a = x := by
  cases l with
  | nil => simp at h
  | cons a as =>
      simp only [List.map_cons, List.cons.injEq] at h
      rcases h with ⟨rfl, h2⟩
      rw [List.map_eq_nil] at h2
      exact ⟨a, by rw [h2], rfl⟩

theorem elems_isolation (c : Op) (s : Store) (sub : List Sel) (t2 : String)
    (hz : ∀ parent,
      pathsOf (execSels sub (fun _ => false) s t2 parent).log c = [] →
      execSels sub (fun o => o == c) s t2 parent =
        execSels sub (fun _ => false) s t2 parent)
    (ho : ∀ parent p, nodupSels sub = true →
      pathsOf (execSels sub (fun _ => false) s t2 parent).log c = [p] →
      ∃ m q, p = PathSeg.fld m :: q ∧ m ∈ sub.map Sel.name ∧
        JValue.obj (execSels sub (fun o => o == c) s t2 parent).fields =
          nullAt p
            (JValue.obj (execSels sub (fun _ => false) s t2 parent).fields) ∧
        (execSels sub (fun o => o == c) s t2 parent).errs =
          [⟨p, fetchFailedMessage⟩])
    (hce : ∀ parent,
      (execSels sub (fun _ => false) s t2 parent).errs = []) :
    ∀ (i : Nat) (xs : List JValue),
      (pathsOf
          (completeElems (execSels sub) (fun _ => false) s t2 i xs).2.2 c =
            [] →
        completeElems (execSels sub) (fun o => o == c) s t2 i xs =
          completeElems (execSels sub) (fun _ => false) s t2 i xs) ∧
      (∀ p, nodupSels sub = true →
        pathsOf
          (completeElems (execSels sub) (fun _ => false) s t2 i xs).2.2 c =
            [p] →
        ∃ j q, p = PathSeg.idx j :: q ∧ i ≤ j ∧
          (completeElems (execSels sub) (fun o => o == c) s t2 i xs).1 =
            setIdx
              (completeElems (execSels sub) (fun _ => false) s t2 i xs).1
              (j - i) (nullAt q) ∧
          (completeElems (execSels sub) (fun o => o == c) s t2 i xs).2.1 =
            [⟨p, fetchFailedMessage⟩]) := by
  intro i xs
  induction xs generalizing i with
  | nil =>
      refine ⟨fun _ => rfl, ?_⟩
      intro p _ h
      simp [completeElems, pathsOf] at h
  | cons x rest ih =>
      cases x with
      | obj fs =>
          have eC : (completeElems (execSels sub) (fun _ => false) s t2 i
              (JValue.obj fs :: rest)) =
              ⟨JValue.obj (execSels sub (fun _ => false) s t2
                  (.obj fs)).fields ::
                (completeElems (execSels sub) (fun _ => false) s t2 (i + 1)
                  rest).1,
               prefErrs (.idx i)
                  (execSels sub (fun _ => false) s t2 (.obj fs)).errs ++
                (completeElems (execSels sub) (fun _ => false) s t2 (i + 1)
                  rest).2.1,
               prefLog (.idx i)
                  (execSels sub (fun _ => false) s t2 (.obj fs)).log ++
                (completeElems (execSels sub) (fun _ => false) s t2 (i + 1)
                  rest).2.2⟩ := rfl
          have eF : (completeElems (execSels sub) (fun o => o == c) s t2 i
              (JValue.obj fs :: rest)) =
              ⟨JValue.obj (execSels sub (fun o => o == c) s t2
                  (.obj fs)).fields ::
                (completeElems (execSels sub) (fun o => o == c) s t2 (i + 1)
                  rest).1,
               prefErrs (.idx i)
                  (execSels sub (fun o => o == c) s t2 (.obj fs)).errs ++
                (completeElems (execSels sub) (fun o => o == c) s t2 (i + 1)
                  rest).2.1,
               prefLog (.idx i)
                  (execSels sub (fun o => o == c) s t2 (.obj fs)).log ++
                (completeElems (execSels sub) (fun o => o == c) s t2 (i + 1)
                  rest).2.2⟩ := rfl
          refine ⟨?_, ?_⟩
          · intro hpz
            rw [eC] at hpz
            simp only [pathsOf_append, pathsOf_prefLog,
              List.append_eq_nil, List.map_eq_nil] at hpz
            rcases hpz with ⟨hz1, hz2⟩
            have ha := hz (.obj fs) hz1
            have hb := (ih (i + 1)).1 hz2
            rw [eC, eF, ha, hb]
          · intro p hnd h1
            rw [eC] at h1
            rw [pathsOf_append, pathsOf_prefLog] at h1
            rcases append_eq_singleton_cases _ _ _ h1 with ⟨h2, h3⟩ | ⟨h2, h3⟩
            · rw [List.map_eq_nil] at h2
              have ha := hz (.obj fs) h2
              rcases (ih (i + 1)).2 p hnd h3 with ⟨j, q, rfl, hij, hv, he⟩
              refine ⟨j, q, rfl, by omega, ?_, ?_⟩
              · rw [eC, eF, ha, hv]
                have : j - i = (j - (i + 1)) + 1 := by omega
                rw [this]
                rfl
              · rw [eF, ha, hce (.obj fs), he]
                rfl
            · rcases map_eq_singleton_cases _ _ _ h2 with ⟨q0, hq1, rfl⟩
              rcases ho (.obj fs) q0 hnd hq1 with ⟨m, q, hq0, _, hmask, herr⟩
              have hb := (ih (i + 1)).1 h3
              refine ⟨i, q0, rfl, Nat.le_refl i, ?_, ?_⟩
              · rw [eC, eF, hb]
                have : i - i = 0 := by omega
                rw [this]
                have : setIdx
                    (JValue.obj (execSels sub (fun _ => false) s t2
                      (.obj fs)).fields ::
                      (completeElems (execSels sub) (fun _ => false) s t2
                        (i + 1) rest).1) 0 (nullAt q0) =
                    nullAt q0 (JValue.obj (execSels sub (fun _ => false) s t2
                      (.obj fs)).fields) ::
                      (completeElems (execSels sub) (fun _ => false) s t2
                        (i + 1) rest).1 := rfl
                rw [this, ← hmask]
              · rw [eF, hb, herr]
                have hbe : (completeElems (execSels sub) (fun _ => false) s
                    t2 (i + 1) rest).2.1 = [] :=
                  completeElems_clean_errs_nil (execSels sub) s t2 hce
                    (i + 1) rest
                rw [hbe]
                rfl
      | null =>
          refine ⟨?_, ?_⟩
          · intro hpz
            simp only [completeElems, List.nil_append] at hpz ⊢
            rw [(ih (i + 1)).1 hpz]
          · intro p hnd h1
            simp only [completeElems, List.nil_append] at h1 ⊢
            rcases (ih (i + 1)).2 p hnd h1 with ⟨j, q, rfl, hij, hv, he⟩
            refine ⟨j, q, rfl, by omega, ?_, he⟩
            have hji : j - i = (j - (i + 1)) + 1 := by omega
            rw [hji, hv]
            rfl
      | str a =>
          refine ⟨?_, ?_⟩
          · intro hpz
            simp only [completeElems, List.nil_append] at hpz ⊢
            rw [(ih (i + 1)).1 hpz]
          · intro p hnd h1
            simp only [completeElems, List.nil_append] at h1 ⊢
            rcases (ih (i + 1)).2 p hnd h1 with ⟨j, q, rfl, hij, hv, he⟩
            refine ⟨j, q, rfl, by omega, ?_, he⟩
            have hji : j - i = (j - (i + 1)) + 1 := by omega
            rw [hji, hv]
            rfl
      | int a =>
          refine ⟨?_, ?_⟩
          · intro hpz
            simp only [completeElems, List.nil_append] at hpz ⊢
            rw [(ih (i + 1)).1 hpz]
          · intro p hnd h1
            simp only [completeElems, List.nil_append] at h1 ⊢
            rcases (ih (i + 1)).2 p hnd h1 with ⟨j, q, rfl, hij, hv, he⟩
            refine ⟨j, q, rfl, by omega, ?_, he⟩
            have hji : j - i = (j - (i + 1)) + 1 := by omega
            rw [hji, hv]
            rfl
      | bool a =>
          refine ⟨?_, ?_⟩
          · intro hpz
            simp only [completeElems, List.nil_append] at hpz ⊢
            rw [(ih (i + 1)).1 hpz]
          · intro p hnd h1
            simp only [completeElems, List.nil_append] at h1 ⊢
            rcases (ih (i + 1)).2 p hnd h1 with ⟨j, q, rfl, hij, hv, he⟩
            refine ⟨j, q, rfl, by omega, ?_, he⟩
            have hji : j - i = (j - (i + 1)) + 1 := by omega
            rw [hji, hv]
            rfl
      | arr a =>
          refine ⟨?_, ?_⟩
          · intro hpz
            simp only [completeElems, List.nil_append] at hpz ⊢
            rw [(ih (i + 1)).1 hpz]
          · intro p hnd h1
            simp only [completeElems, List.nil_append] at h1 ⊢
            rcases (ih (i + 1)).2 p hnd h1 with ⟨j, q, rfl, hij, hv, he⟩
            refine ⟨j, q, rfl, by omega, ?_, he⟩
            have hji : j - i = (j - (i + 1)) + 1 := by omega
            rw [hji, hv]
            rfl

theorem completeVal_isolation (c : Op) (s : Store) (sub : List Sel)
    (kd : FKind)
    (hz : ∀ (parent : String × JValue),
      pathsOf (execSels sub (fun _ => false) s parent.1 parent.2).log c =
          [] →
      execSels sub (fun o => o == c) s parent.1 parent.2 =
        execSels sub (fun _ => false) s parent.1 parent.2)
    (ho : ∀ (parent : String × JValue) (p : QPath), nodupSels sub = true →
      pathsOf (execSels sub (fun _ => false) s parent.1 parent.2).log c =
          [p] →
      ∃ m q, p = PathSeg.fld m :: q ∧ m ∈ sub.map Sel.name ∧
        JValue.obj
            (execSels sub (fun o => o == c) s parent.1 parent.2).fields =
          nullAt p (JValue.obj
            (execSels sub (fun _ => false) s parent.1 parent.2).fields) ∧
        (execSels sub (fun o => o == c) s parent.1 parent.2).errs =
          [⟨p, fetchFailedMessage⟩])
    (hce : ∀ (parent : String × JValue),
      (execSels sub (fun _ => false) s parent.1 parent.2).errs = []) :
    ∀ v : JValue,
      (pathsOf
          (completeVal kd (execSels sub) (fun _ => false) s v).2.2 c = [] →
        completeVal kd (execSels sub) (fun o => o == c) s v =
          completeVal kd (execSels sub) (fun _ => false) s v) ∧
      (∀ p, nodupSels sub = true →
        pathsOf
          (completeVal kd (execSels sub) (fun _ => false) s v).2.2 c = [p] →
        (completeVal kd (execSels sub) (fun o => o == c) s v).1 =
          nullAt p (completeVal kd (execSels sub) (fun _ => false) s v).1 ∧
        (completeVal kd (execSels sub) (fun o => o == c) s v).2.1 =
          [⟨p, fetchFailedMessage⟩]) := by
  intro v
  cases kd with
  | scalar =>
      refine ⟨fun _ => rfl, ?_⟩
      intro p _ h
      simp [completeVal, pathsOf] at h
  | one t2 =>
      cases v with
      | obj fs =>
          refine ⟨?_, ?_⟩
          · intro hpz
            have h2 : pathsOf
                (execSels sub (fun _ => false) s t2 (.obj fs)).log c = [] :=
              hpz
            have ha := hz (t2, .obj fs) h2
            simp only [completeVal]
            rw [ha]
          · intro p hnd h1
            have h2 : pathsOf
                (execSels sub (fun _ => false) s t2 (.obj fs)).log c = [p] :=
              h1
            rcases ho (t2, .obj fs) p hnd h2 with ⟨m, q, hp, hmem, hmask, herr⟩
            exact ⟨hmask, herr⟩
      | null =>
          refine ⟨fun _ => rfl, ?_⟩
          intro p _ h
          simp [completeVal, pathsOf] at h
      | str a =>
          refine ⟨fun _ => rfl, ?_⟩
          intro p _ h
          simp [completeVal, pathsOf] at h
      | int a =>
          refine ⟨fun _ => rfl, ?_⟩
          intro p _ h
          simp [completeVal, pathsOf] at h
      | bool a =>
          refine ⟨fun _ => rfl, ?_⟩
          intro p _ h
          simp [completeVal, pathsOf] at h
      | arr a =>
          refine ⟨fun _ => rfl, ?_⟩
          intro p _ h
          simp [completeVal, pathsOf] at h
  | many t2 =>
      cases v with
      | arr xs =>
          have E := elems_isolation c s sub t2
            (fun parent => hz (t2, parent)) (fun parent => ho (t2, parent))
            (fun parent => hce (t2, parent)) 0 xs
          refine ⟨?_, ?_⟩
          · intro hpz
            have h2 : pathsOf (completeElems (execSels sub)
                (fun _ => false) s t2 0 xs).2.2 c = [] := hpz
            have := E.1 h2
            simp only [completeVal]
            rw [this]
          · intro p hnd h1
            have h2 : pathsOf (completeElems (execSels sub)
                (fun _ => false) s t2 0 xs).2.2 c = [p] := h1
            rcases E.2 p hnd h2 with ⟨j, q, hp, _, hv, he⟩
            subst hp
            rw [Nat.sub_zero] at hv
            constructor
            · show JValue.arr (completeElems (execSels sub)
                  (fun o => o == c) s t2 0 xs).1 =
                nullAt (PathSeg.idx j :: q) (JValue.arr (completeElems
                  (execSels sub) (fun _ => false) s t2 0 xs).1)
              rw [hv]
              rfl
            · exact he
      | null =>
          refine ⟨fun _ => rfl, ?_⟩
          intro p _ h
          simp [completeVal, pathsOf] at h
      | str a =>
          refine ⟨fun _ => rfl, ?_⟩
          intro p _ h
          simp [completeVal, pathsOf] at h
      | int a =>
          refine ⟨fun _ => rfl, ?_⟩
          intro p _ h
          simp [completeVal, pathsOf] at h
      | bool a =>
          refine ⟨fun _ => rfl, ?_⟩
          intro p _ h
          simp [completeVal, pathsOf] at h
      | obj fs =>
          refine ⟨fun _ => rfl, ?_⟩
          intro p _ h
          simp [completeVal, pathsOf] at h

theorem nullAt_obj_head (n : String) (x : JValue)
    (ys : List (String × JValue)) (q : QPath) :
    nullAt (PathSeg.fld n :: q) (JValue.obj ((n, x) :: ys)) =
      JValue.obj ((n, nullAt q x) :: ys) := by
  show JValue.obj (setFirst ((n, x) :: ys) n (nullAt q)) = _
  simp [setFirst]

theorem nullAt_obj_skip (nm n : String) (x : JValue)
    (ys : List (String × JValue)) (q : QPath) (h : nm ≠ n) :
    nullAt (PathSeg.fld n :: q) (JValue.obj ((nm, x) :: ys)) =
      JValue.obj ((nm, x) :: setFirst ys n (nullAt q)) := by
  show JValue.obj (setFirst ((nm, x) :: ys) n (nullAt q)) = _
  simp only [setFirst]
  rw [if_neg h]

theorem exec_isolation (c : Op) (s : Store) :
    (∀ sel (t : String) (parent : JValue),
      (pathsOf (execSel sel (fun _ => false) s t parent).log c = [] →
        execSel sel (fun o => o == c) s t parent =
          execSel sel (fun _ => false) s t parent) ∧
      (∀ p, nodupSel sel = true →
        pathsOf (execSel sel (fun _ => false) s t parent).log c = [p] →
        ∃ q, p = PathSeg.fld sel.name :: q ∧
          (execSel sel (fun o => o == c) s t parent).val =
            nullAt q (execSel sel (fun _ => false) s t parent).val ∧
          (execSel sel (fun o => o == c) s t parent).errs =
            [⟨p, fetchFailedMessage⟩])) ∧
    (∀ sels (t : String) (parent : JValue),
      (pathsOf (execSels sels (fun _ => false) s t parent).log c = [] →
        execSels sels (fun o => o == c) s t parent =
          execSels sels (fun _ => false) s t parent) ∧
      (∀ p, nodupSels sels = true →
        pathsOf (execSels sels (fun _ => false) s t parent).log c = [p] →
        ∃ m q, p = PathSeg.fld m :: q ∧ m ∈ sels.map Sel.name ∧
          JValue.obj (execSels sels (fun o => o == c) s t parent).fields =
            nullAt p
              (JValue.obj
                (execSels sels (fun _ => false) s t parent).fields) ∧
          (execSels sels (fun o => o == c) s t parent).errs =
            [⟨p, fetchFailedMessage⟩])) := by
  refine Sel.inductionOn
    (fun sel => ∀ (t : String) (parent : JValue),
      (pathsOf (execSel sel (fun _ => false) s t parent).log c = [] →
        execSel sel (fun o => o == c) s t parent =
          execSel sel (fun _ => false) s t parent) ∧
      (∀ p, nodupSel sel = true →
        pathsOf (execSel sel (fun _ => false) s t parent).log c = [p] →
        ∃ q, p = PathSeg.fld sel.name :: q ∧
          (execSel sel (fun o => o == c) s t parent).val =
            nullAt q (execSel sel (fun _ => false) s t parent).val ∧
          (execSel sel (fun o => o == c) s t parent).errs =
            [⟨p, fetchFailedMessage⟩]))
    (fun sels => ∀ (t : String) (parent : JValue),
      (pathsOf (execSels sels (fun _ => false) s t parent).log c = [] →
        execSels sels (fun o => o == c) s t parent =
          execSels sels (fun _ => false) s t parent) ∧
      (∀ p, nodupSels sels = true →
        pathsOf (execSels sels (fun _ => false) s t parent).log c = [p] →
        ∃ m q, p = PathSeg.fld m :: q ∧ m ∈ sels.map Sel.name ∧
          JValue.obj (execSels sels (fun o => o == c) s t parent).fields =
            nullAt p
              (JValue.obj
                (execSels sels (fun _ => false) s t parent).fields) ∧
          (execSels sels (fun o => o == c) s t parent).errs =
            [⟨p, fetchFailedMessage⟩]))
    ?_ ?_ ?_
  · intro n a sub ih t parent
    have CVmk := completeVal_isolation c s sub
      ((fieldKind t n).getD FKind.scalar)
      (fun pr => (ih pr.1 pr.2).1)
      (fun pr p hnd hp => (ih pr.1 pr.2).2 p hnd hp)
      (fun pr => exec_clean_errs_nil.2 sub s pr.1 pr.2)
    rcases hop : fieldOp t n a parent with _ | op
    · have eC : execSel (Sel.mk n a sub) (fun _ => false) s t parent =
          ⟨(completeVal ((fieldKind t n).getD FKind.scalar) (execSels sub)
              (fun _ => false) s (getProp parent n)).1,
           prefErrs (PathSeg.fld n)
             (completeVal ((fieldKind t n).getD FKind.scalar) (execSels sub)
               (fun _ => false) s (getProp parent n)).2.1,
           prefLog (PathSeg.fld n)
             (completeVal ((fieldKind t n).getD FKind.scalar) (execSels sub)
               (fun _ => false) s (getProp parent n)).2.2⟩ := by
        simp only [execSel, hop]
      have eF : execSel (Sel.mk n a sub) (fun o => o == c) s t parent =
          ⟨(completeVal ((fieldKind t n).getD FKind.scalar) (execSels sub)
              (fun o => o == c) s (getProp parent n)).1,
           prefErrs (PathSeg.fld n)
             (completeVal ((fieldKind t n).getD FKind.scalar) (execSels sub)
               (fun o => o == c) s (getProp parent n)).2.1,
           prefLog (PathSeg.fld n)
             (completeVal ((fieldKind t n).getD FKind.scalar) (execSels sub)
               (fun o => o == c) s (getProp parent n)).2.2⟩ := by
        simp only [execSel, hop]
      have CV := CVmk (getProp parent n)
      refine ⟨?_, ?_⟩
      · intro hpz
        rw [eC] at hpz
        rw [pathsOf_prefLog, List.map_eq_nil_iff] at hpz
        rw [eC, eF, CV.1 hpz]
      · intro p hnd h1
        rw [eC] at h1
        rw [pathsOf_prefLog] at h1
        rcases map_eq_singleton_cases _ _ _ h1 with ⟨q, hq, rfl⟩
        rcases CV.2 q hnd hq with ⟨hmask, herr⟩
        refine ⟨q, rfl, ?_, ?_⟩
        · rw [eC, eF]
          exact hmask
        · rw [eF, herr]
          rfl
    · by_cases hoc : op = c
      · subst hoc
        have eC : execSel (Sel.mk n a sub) (fun _ => false) s t parent =
            ⟨(completeVal ((fieldKind t n).getD FKind.scalar) (execSels sub)
                (fun _ => false) s (runOp op s).1).1,
             prefErrs (PathSeg.fld n)
               (completeVal ((fieldKind t n).getD FKind.scalar)
                 (execSels sub) (fun _ => false) s (runOp op s).1).2.1,
             ([PathSeg.fld n], op) :: prefLog (PathSeg.fld n)
               (completeVal ((fieldKind t n).getD FKind.scalar)
                 (execSels sub) (fun _ => false) s (runOp op s).1).2.2⟩ := by
          simp only [execSel, hop, Bool.false_eq_true, if_false]
        have eF : execSel (Sel.mk n a sub) (fun o => o == op) s t parent =
            ⟨.null, [⟨[PathSeg.fld n], fetchFailedMessage⟩],
             [([PathSeg.fld n], op)]⟩ := by
          simp only [execSel, hop, beq_self_eq_true, if_true]
        refine ⟨?_, ?_⟩
        · intro hpz
          rw [eC, pathsOf_cons_eq _ _ _ rfl] at hpz
          simp at hpz
        · intro p hnd h1
          rw [eC, pathsOf_cons_eq _ _ _ rfl] at h1
          simp only [List.cons.injEq] at h1
          rcases h1 with ⟨h1a, h1b⟩
          subst h1a
          refine ⟨[], rfl, ?_, ?_⟩
          · rw [eF]
            rfl
          · rw [eF]
      · have hbf : (op == c) = false := by
          simp [hoc]
        have eC : execSel (Sel.mk n a sub) (fun _ => false) s t parent =
            ⟨(completeVal ((fieldKind t n).getD FKind.scalar) (execSels sub)
                (fun _ => false) s (runOp op s).1).1,
             prefErrs (PathSeg.fld n)
               (completeVal ((fieldKind t n).getD FKind.scalar)
                 (execSels sub) (fun _ => false) s (runOp op s).1).2.1,
             ([PathSeg.fld n], op) :: prefLog (PathSeg.fld n)
               (completeVal ((fieldKind t n).getD FKind.scalar)
                 (execSels sub) (fun _ => false) s (runOp op s).1).2.2⟩ := by
          simp only [execSel, hop, Bool.false_eq_true, if_false]
        have eF : execSel (Sel.mk n a sub) (fun o => o == c) s t parent =
            ⟨(completeVal ((fieldKind t n).getD FKind.scalar) (execSels sub)
                (fun o => o == c) s (runOp op s).1).1,
             prefErrs (PathSeg.fld n)
               (completeVal ((fieldKind t n).getD FKind.scalar)
                 (execSels sub) (fun o => o == c) s (runOp op s).1).2.1,
             ([PathSeg.fld n], op) :: prefLog (PathSeg.fld n)
               (completeVal ((fieldKind t n).getD FKind.scalar)
                 (execSels sub) (fun o => o == c) s (runOp op s).1).2.2⟩ := by
          simp only [execSel, hop, hbf, Bool.false_eq_true, if_false]
        have CV := CVmk (runOp op s).1
        refine ⟨?_, ?_⟩
        · intro hpz
          rw [eC, pathsOf_cons_ne _ _ _ hoc, pathsOf_prefLog,
            List.map_eq_nil_iff] at hpz
          rw [eC, eF, CV.1 hpz]
        · intro p hnd h1
          rw [eC, pathsOf_cons_ne _ _ _ hoc, pathsOf_prefLog] at h1
          rcases map_eq_singleton_cases _ _ _ h1 with ⟨q, hq, rfl⟩
          rcases CV.2 q hnd hq with ⟨hmask, herr⟩
          refine ⟨q, rfl, ?_, ?_⟩
          · rw [eC, eF]
            exact hmask
          · rw [eF, herr]
            rfl
  · intro t parent
    refine ⟨fun _ => rfl, ?_⟩
    intro p _ h
    simp [execSels, pathsOf] at h
  · intro sel rest ih1 ih2 t parent
    have eC : execSels (sel :: rest) (fun _ => false) s t parent =
        ⟨(sel.name, (execSel sel (fun _ => false) s t parent).val) ::
            (execSels rest (fun _ => false) s t parent).fields,
          (execSel sel (fun _ => false) s t parent).errs ++
            (execSels rest (fun _ => false) s t parent).errs,
          (execSel sel (fun _ => false) s t parent).log ++
            (execSels rest (fun _ => false) s t parent).log⟩ := rfl
    have eF : execSels (sel :: rest) (fun o => o == c) s t parent =
        ⟨(sel.name, (execSel sel (fun o => o == c) s t parent).val) ::
            (execSels rest (fun o => o == c) s t parent).fields,
          (execSel sel (fun o => o == c) s t parent).errs ++
            (execSels rest (fun o => o == c) s t parent).errs,
          (execSel sel (fun o => o == c) s t parent).log ++
            (execSels rest (fun o => o == c) s t parent).log⟩ := rfl
    refine ⟨?_, ?_⟩
    · intro hpz
      rw [eC] at hpz
      rw [pathsOf_append, List.append_eq_nil] at hpz
      rcases hpz with ⟨h1, h2⟩
      rw [eC, eF, (ih1 t parent).1 h1, (ih2 t parent).1 h2]
    · intro p hnd h1
      simp only [nodupSels, Bool.and_eq_true] at hnd
      rcases hnd with ⟨⟨hall, hnd1⟩, hnd2⟩
      rw [eC] at h1
      rw [pathsOf_append] at h1
      rcases append_eq_singleton_cases _ _ _ h1 with ⟨h2, h3⟩ | ⟨h2, h3⟩
      · have a1 := (ih1 t parent).1 h2
        rcases (ih2 t parent).2 p hnd2 h3 with ⟨m, q, hp, hmem, hmask, herr⟩
        subst hp
        have hmne : m ≠ sel.name := by
          rcases List.mem_map.mp hmem with ⟨x, hx, rfl⟩
          have hx2 := List.all_eq_true.mp hall x hx
          simpa using hx2
        have hflds : (execSels rest (fun o => o == c) s t parent).fields =
            setFirst (execSels rest (fun _ => false) s t parent).fields m
              (nullAt q) := by
          have h5 : JValue.obj
              (execSels rest (fun o => o == c) s t parent).fields =
              JValue.obj (setFirst
                (execSels rest (fun _ => false) s t parent).fields m
                (nullAt q)) := hmask
          injection h5
        refine ⟨m, q, rfl, List.mem_cons_of_mem _ hmem, ?_, ?_⟩
        · rw [eC, eF, a1, hflds,
            nullAt_obj_skip sel.name m
              (execSel sel (fun _ => false) s t parent).val
              (execSels rest (fun _ => false) s t parent).fields q
              (fun h => hmne h.symm)]
        · rw [eF, herr, a1, exec_clean_errs_nil.1 sel s t parent]
          rfl
      · rcases (ih1 t parent).2 p hnd1 h2 with ⟨q, hp, hvalmask, herr1⟩
        subst hp
        have a2 := (ih2 t parent).1 h3
        refine ⟨sel.name, q, rfl, ?_, ?_, ?_⟩
        · exact List.mem_cons_self _ _
        · rw [eC, eF, a2, hvalmask,
            nullAt_obj_head sel.name
              (execSel sel (fun _ => false) s t parent).val
              (execSels rest (fun _ => false) s t parent).fields q]
        · rw [eF, herr1, a2, exec_clean_errs_nil.2 rest s t parent]
          rfl

/-- C3: if the storage collaborator fails exactly one relation fetch —
a relation-fetch call that the clean execution of the query performs at
exactly one path `p` — then the returned document equals the clean
document with null at exactly that path (every sibling and unrelated
field keeps its value), the error list contains exactly one entry, at
the affected path, and the clean run itself had no errors; the failure
never aborts sibling resolution. -/
theorem single_fetch_failure_isolated (s : Store) (q : List Sel) (c : Op)
    (p : QPath) (hrel : isRelationFetch c = true)
    (hnd : nodupSels q = true)
    (h1 : pathsOf (graphqlExec (fun _ => false) s q).2.1 c = [p]) :
    (graphqlExec (fun o => o == c) s q).1.data =
      Option.map (nullAt p) (graphqlExec (fun _ => false) s q).1.data ∧
    (graphqlExec (fun o => o == c) s q).1.errors =
      [⟨p, fetchFailedMessage⟩] ∧
    (graphqlExec (fun _ => false) s q).1.errors = [] := by
  have h1b : pathsOf
      (execSels q (fun _ => false) s "Query" .null).log c = [p] := h1
  rcases ((exec_isolation c s).2 q "Query" .null).2 p hnd h1b with
    ⟨m, q2, hp, hmem, hmask, herr⟩
  refine ⟨?_, herr, exec_clean_errs_nil.2 q s "Query" .null⟩
  exact congrArg some hmask

/-- The query `users { name userSubscribedTo { id } }`. -/
def qUsersNameSub : List Sel :=
  [.mk "users" none
    [.mk "name" none [],
     .mk "userSubscribedTo" none [.mk "id" none []]]]

set_option maxRecDepth 10000 in
set_option maxHeartbeats 1000000 in
/-- Witness for C3: in the two-user store, failing exactly the
subscribed-to fetch of user u1 (which the clean run performs exactly
once, at `users[0].userSubscribedTo`) nulls only that field, keeps the
sibling `name` and the whole `users[1]` entry intact, and produces
exactly one error at that path. -/
theorem single_fetch_failure_isolated_witness :
    isRelationFetch (Op.findManyUsersSubscribedTo "u1") = true ∧
    nodupSels qUsersNameSub = true ∧
    pathsOf (graphqlExec (fun _ => false) storeTwoUsers qUsersNameSub).2.1
        (Op.findManyUsersSubscribedTo "u1") =
      [[PathSeg.fld "users", PathSeg.idx 0,
        PathSeg.fld "userSubscribedTo"]] ∧
    ((graphqlExec (fun o => o == Op.findManyUsersSubscribedTo "u1")
        storeTwoUsers qUsersNameSub).1.data =
      Option.map (nullAt [PathSeg.fld "users", PathSeg.idx 0,
          PathSeg.fld "userSubscribedTo"])
        (graphqlExec (fun _ => false) storeTwoUsers
          qUsersNameSub).1.data ∧
    (graphqlExec (fun o => o == Op.findManyUsersSubscribedTo "u1")
        storeTwoUsers qUsersNameSub).1.errors =
      [⟨[PathSeg.fld "users", PathSeg.idx 0,
         PathSeg.fld "userSubscribedTo"], fetchFailedMessage⟩] ∧
    (graphqlExec (fun _ => false) storeTwoUsers
        qUsersNameSub).1.errors = []) :=
  ⟨by decide, by decide, by decide,
   single_fetch_failure_isolated storeTwoUsers qUsersNameSub
     (Op.findManyUsersSubscribedTo "u1")
     [PathSeg.fld "users", PathSeg.idx 0, PathSeg.fld "userSubscribedTo"]
     (by decide) (by decide) (by decide)⟩
